import Mathlib

/-!
Verification of the trip-synthesis engine of `src/scripts/build.js`
(`createTripsFromMapPoints` and its helpers).

The JavaScript distance function `haversineKm` is built from floating-point
transcendental functions (`Math.sin`, `Math.cos`, `Math.atan2`, `Math.sqrt`);
it is modelled here as an abstract distance function `distKm : ℚ × ℚ → ℚ × ℚ → ℚ`
(the mathematical haversine formula is symmetric, which is the only property
the clustering claims rely on).  All control flow, accumulator logic, ranking,
tie-breaking and string formatting is embedded faithfully from the source.
-/

namespace Birdopedia

/-! ### SpatialClusterer (build.js lines 356-383)

The day's points are indexed `0 … n-1`; `adj i j` models
`haversineKm(points[i], points[j]) <= clusterRadiusKm`.  The JS worklist
(`queue.pop()` takes the most recently pushed index) is modelled with the
Lean list head standing for the end of the JS array. -/

/-- One pass of the inner `for (j …)` loop of build.js line 371-380: the
indices that are not yet visited and are within radius of `cur`, in
ascending order (the order in which the JS loop pushes them). -/
def newNeighbors {n : ℕ} (adj : Fin n → Fin n → Bool) (visited : Finset (Fin n))
    (cur : Fin n) : List (Fin n) :=
  (List.finRange n).filter (fun j => decide (j ∉ visited) && adj cur j)

/-- The `while (queue.length)` loop of build.js lines 368-381.  Fuel-indexed
structural recursion; `2*n + 1` fuel provably suffices (each iteration pops
one queue entry and every pushed entry is freshly marked visited). -/
def bfsAux {n : ℕ} (adj : Fin n → Fin n → Bool) :
    ℕ → List (Fin n) → Finset (Fin n) → List (Fin n) → List (Fin n) × Finset (Fin n)
  | _, [], visited, comp => (comp, visited)
  | 0, _ :: _, visited, comp => (comp, visited)
  | fuel + 1, cur :: rest, visited, comp =>
    let nbrs := newNeighbors adj visited cur
    bfsAux adj fuel (nbrs.reverse ++ rest) (visited ∪ nbrs.toFinset) (comp ++ [cur])

/-- One iteration of the outer `for (i …)` loop of build.js lines 360-364:
skip visited indices, otherwise explore the component of `i`. -/
def clustersStep {n : ℕ} (adj : Fin n → Fin n → Bool)
    (st : Finset (Fin n) × List (List (Fin n))) (i : Fin n) :
    Finset (Fin n) × List (List (Fin n)) :=
  if i ∈ st.1 then st
  else
    let r := bfsAux adj (2 * n + 1) [i] (insert i st.1) []
    (r.2, st.2 ++ [r.1])

/-- The clustering of one day's points into components (build.js 356-382),
as lists of indices in the order the algorithm emits them. -/
def clusters {n : ℕ} (adj : Fin n → Fin n → Bool) : List (List (Fin n)) :=
  ((List.finRange n).foldl (clustersStep adj) (∅, [])).2

/-- The proximity edge `haversineKm(points[i], points[j]) <= R` as a
proposition on indices. -/
def edgeRel {n : ℕ} (adj : Fin n → Fin n → Bool) (i j : Fin n) : Prop :=
  adj i j = true

/-- Chain connectivity: `i` and `j` are joined by a chain of points whose
consecutive pairwise distances are each within the radius. -/
def connectedIdx {n : ℕ} (adj : Fin n → Fin n → Bool) : Fin n → Fin n → Prop :=
  Relation.ReflTransGen (edgeRel adj)

/-- Loop invariant for the `while (queue.length)` loop started at point `s`
with pre-visited set `V₀`. -/
structure BfsInv {n : ℕ} (adj : Fin n → Fin n → Bool) (s : Fin n) (V₀ : Finset (Fin n))
    (queue : List (Fin n)) (visited : Finset (Fin n)) (comp : List (Fin n)) : Prop where
  queue_visited : ∀ q ∈ queue, q ∈ visited
  queue_conn : ∀ q ∈ queue, connectedIdx adj s q
  visited_conn : ∀ v ∈ visited, v ∈ V₀ ∨ connectedIdx adj s v
  comp_conn : ∀ v ∈ comp, connectedIdx adj s v
  processed_closed : ∀ v ∈ visited, v ∈ queue ∨ ∀ w, adj v w = true → w ∈ visited
  visited_cover : ∀ v ∈ visited, v ∈ V₀ ∨ v ∈ queue ∨ v ∈ comp
  base_subset : V₀ ⊆ visited
  start_visited : s ∈ visited
  comp_visited : ∀ v ∈ comp, v ∈ visited
  start_in : s ∈ comp ∨ s ∈ queue

/-- Invariant for the outer `for (i …)` loop: `done` is the prefix of indices
already examined, `acc` the clusters emitted so far. -/
structure ClInv {n : ℕ} (adj : Fin n → Fin n → Bool) (done : List (Fin n))
    (visited : Finset (Fin n)) (acc : List (List (Fin n))) : Prop where
  covered : ∀ v ∈ visited, ∃ c ∈ acc, v ∈ c
  acc_sub : ∀ c ∈ acc, ∀ v ∈ c, v ∈ visited
  closed : ∀ v ∈ visited, ∀ w, adj v w = true → w ∈ visited
  done_visited : ∀ j ∈ done, j ∈ visited
  comp_char : ∀ c ∈ acc, ∀ u ∈ c, ∀ v, v ∈ c ↔ connectedIdx adj u v
  disj : ∀ c₁ ∈ acc, ∀ c₂ ∈ acc, (∃ v, v ∈ c₁ ∧ v ∈ c₂) → c₁ = c₂

/-! ### Data model

A capture's `captureDateObj` (a JS `Date`) is modelled as epoch milliseconds
(`Int`); the host-dependent `normalizeExifDate` / `toLocalDayKey` parsing is
modelled by abstract parameters `parseDate : String → Option Int` (null
result = `none`) and `dayOf : Int → String` (on a valid date
`toLocalDayKey` always returns a string, build.js 252-260).  JS place fields
are `null` or a string; `none` models `null`, and JS truthiness of a string
is `¬ isEmpty`. -/

structure Capture where
  bird : String
  filename : String
  dateIso : String
  camera : Option String
  lens : Option String
deriving DecidableEq

structure GeoCapture where
  core : Capture
  lat : ℚ
  lon : ℚ
  locationLabel : Option String
  park : Option String
  site : Option String
  city : Option String
  state : Option String
  country : Option String
deriving DecidableEq

/-- A capture paired with its resolved `captureDateObj` (epoch ms). -/
structure TimedCapture where
  core : Capture
  time : Int
deriving DecidableEq

/-- A geotagged capture paired with its resolved `captureDateObj`. -/
structure TimedGeo where
  geo : GeoCapture
  time : Int
deriving DecidableEq

def TimedGeo.toTimed (p : TimedGeo) : TimedCapture := ⟨p.geo.core, p.time⟩

def posOf (p : TimedGeo) : ℚ × ℚ := (p.geo.lat, p.geo.lon)

/-- `value || other` for a JS string-or-null `value`. -/
def strOr (a : Option String) (b : String) : String :=
  match a with
  | some s => if s.isEmpty then b else s
  | none => b

/-- `` `${capture.bird}::${capture.filename}` `` (build.js 402). -/
def captureKey (c : Capture) : String := c.bird ++ "::" ++ c.filename

/-! ### String helpers of the LocationLabeler (build.js 315-334) -/

/-- `.replace(/[...]/g, "'")`: the right/left single quotation marks and the
grave accent become an apostrophe. -/
def unifyApostrophe (c : Char) : Char :=
  if c = Char.ofNat 8217 ∨ c = Char.ofNat 8216 ∨ c = Char.ofNat 96 then Char.ofNat 39
  else c

/-- `.replace(/\s+/g, ' ')`: each maximal whitespace run becomes one space.
The flag records whether the previous character was whitespace. -/
def collapseWsAux : Bool → List Char → List Char
  | _, [] => []
  | prevWs, c :: rest =>
    if c.isWhitespace then
      if prevWs then collapseWsAux true rest
      else ' ' :: collapseWsAux true rest
    else c :: collapseWsAux false rest

/-- `normalizeLocationToken` (build.js 315-320). -/
def normalizeLocationToken (s : String) : String :=
  (String.mk (collapseWsAux false (s.data.map unifyApostrophe))).trim.toLower

/-- `labelQuality` (build.js 321-325): uppercase-letter count × 10 + length. -/
def labelQuality (s : String) : ℕ :=
  10 * (s.data.filter Char.isUpper).length + s.length

/-- `isGenericAdmin` (build.js 326-334). -/
def isGenericAdmin (s : String) : Bool :=
  let token := normalizeLocationToken s
  token.startsWith "town of " || token.startsWith "city of " ||
    token.endsWith " county" || token.endsWith " township"

def TITLE_APPEND_DISTANCE_MILES : ℚ := 3

def KM_PER_MILE : ℚ := 1609344 / 1000000

/-! ### DayPartitioner (build.js 338-352) -/

/-- Append `p` under key `k`, preserving JS `Map` insertion order. -/
def addToBucket (acc : List (String × List TimedGeo)) (k : String) (p : TimedGeo) :
    List (String × List TimedGeo) :=
  match acc with
  | [] => [(k, [p])]
  | (k', l) :: rest =>
    if k' = k then (k', l ++ [p]) :: rest else (k', l) :: addToBucket rest k p

/-- The `byDay` map (build.js 338-352): captures whose timestamp does not
parse are skipped. -/
def bucketByDay (parseDate : String → Option Int) (dayOf : Int → String)
    (points : List GeoCapture) : List (String × List TimedGeo) :=
  points.foldl
    (fun acc p =>
      match parseDate p.core.dateIso with
      | none => acc
      | some t => addToBucket acc (dayOf t) ⟨p, t⟩)
    []

/-- One day's geo-clusters (build.js 356-383): sort by time, take connected
components of the `distKm ≤ radius` graph, map indices back to captures and
sort each component by time. -/
def dayClusters (distKm : ℚ × ℚ → ℚ × ℚ → ℚ) (radius : ℚ)
    (pts : List TimedGeo) : List (List TimedGeo) :=
  let sorted := List.insertionSort (fun a b : TimedGeo => a.time ≤ b.time) pts
  let adj : Fin sorted.length → Fin sorted.length → Bool :=
    fun i j => decide (distKm (posOf (sorted.get i)) (posOf (sorted.get j)) ≤ radius)
  (clusters adj).map
    (fun comp => List.insertionSort (fun a b : TimedGeo => a.time ≤ b.time) (comp.map sorted.get))

/-! ### CaptureMerger (build.js 400-412) -/

/-- Attach the day's extra (non-geotagged) captures to one cluster,
deduplicating on `captureKey` against captures already seen.  An extra whose
`captureDateIso` does not re-parse gets a `null` `captureDateObj`, which all
later numeric uses (sort comparator, duration subtraction) coerce to `0`;
`(parseDate _).getD 0` models that coercion. -/
def mergeStep (parseDate : String → Option Int)
    (st : List TimedCapture × List String) (e : Capture) :
    List TimedCapture × List String :=
  if captureKey e ∈ st.2 then st
  else (st.1 ++ [⟨e, (parseDate e.dateIso).getD 0⟩], st.2 ++ [captureKey e])

def mergeExtras (parseDate : String → Option Int) (geo : List TimedGeo)
    (extras : List Capture) : List TimedCapture :=
  let base := geo.map TimedGeo.toTimed
  (extras.foldl (mergeStep parseDate) (base, base.map (fun c => captureKey c.core))).1

/-! ### TripSummarizer helpers -/

/-- `Array.from(new Set(xs))`: deduplicate keeping first occurrences. -/
def firstDedup {α : Type} [DecidableEq α] (l : List α) : List α :=
  l.foldl (fun acc x => if x ∈ acc then acc else acc ++ [x]) []

/-- Model of `a.localeCompare(b, 'en', { sensitivity: 'base' }) ≤ 0`:
case-insensitive comparison of the lower-cased strings. -/
def ciLe (a b : String) : Prop := a.toLower ≤ b.toLower

instance : DecidableRel ciLe := fun a b => by unfold ciLe; infer_instance

/-- Distinct species of the trip, case-insensitively sorted (build.js 414-416). -/
def speciesListOf (captures : List TimedCapture) : List String :=
  List.insertionSort ciLe (firstDedup (captures.map (fun c => c.core.bird)))

/-- `acc[value] = (acc[value] || 0) + 1` over a JS object: keys keep first
insertion order, as `Object.entries` later enumerates them. -/
def bumpCount (acc : List (String × ℕ)) (k : String) : List (String × ℕ) :=
  match acc with
  | [] => [(k, 1)]
  | (k', n) :: rest =>
    if k' = k then (k', n + 1) :: rest else (k', n) :: bumpCount rest k

def countsList (items : List String) : List (String × ℕ) :=
  items.foldl bumpCount []

/-- The comparator `(a, b) => b[1] - a[1] || a[0].localeCompare(b[0], 'en',
{sensitivity:'base'})` as a total preorder: count descending, then
case-insensitive name ascending. -/
def countOrderLe (a b : String × ℕ) : Prop :=
  b.2 < a.2 ∨ (a.2 = b.2 ∧ ciLe a.1 b.1)

instance : DecidableRel countOrderLe := fun a b => by unfold countOrderLe; infer_instance

/-- `Object.entries(counts).sort(...)[0]` (build.js 532-534, 544-548). -/
def topEntry (items : List String) : Option (String × ℕ) :=
  (List.insertionSort countOrderLe (countsList items)).head?

/-- `topSpeciesLabel` (build.js 535). -/
def topSpeciesLabelOf (captures : List TimedCapture) : String :=
  match topEntry (captures.map (fun c => c.core.bird)) with
  | some e => e.1 ++ " (" ++ toString e.2 ++ ")"
  | none => "Unknown"

/-- `captures.map(c => c.camera).filter(v => v && v !== 'Unknown')`
(build.js 549-550). -/
def gearItems (get : TimedCapture → Option String) (captures : List TimedCapture) :
    List String :=
  captures.filterMap
    (fun c =>
      match get c with
      | some s => if s.isEmpty ∨ s = "Unknown" then none else some s
      | none => none)

/-- `topValue` (build.js 544-548). -/
def topValue (items : List String) : Option String :=
  (topEntry items).map Prod.fst

/-- `gearLabel` (build.js 551-553). -/
def gearLabelOf (captures : List TimedCapture) : String :=
  let primaryCamera := (topValue (gearItems (fun c => c.core.camera) captures)).getD "Unknown camera"
  let primaryLens := (topValue (gearItems (fun c => c.core.lens) captures)).getD "Unknown lens"
  primaryCamera ++ " + " ++ primaryLens

/-- `Math.round` on the exact rational value: round half toward `+∞`. -/
def jsRound (q : ℚ) : Int := Int.floor (q + 1 / 2)

/-- `formatDurationMinutes` (build.js 283-296) on an integer minute count
(the non-finite guard is unreachable for integer inputs). -/
def formatDurationMinutes (totalMinutes : Int) : String :=
  if totalMinutes ≤ 0 then "0m"
  else
    let hours := totalMinutes / 60
    let minutes := totalMinutes % 60
    if hours = 0 then toString minutes ++ "m"
    else if minutes = 0 then toString hours ++ "h"
    else toString hours ++ "h " ++ toString minutes ++ "m"

/-- `Number.prototype.toFixed(3)` on an exact rational: round to the nearest
thousandth, half away from zero picking the larger, then print with exactly
three decimals. -/
def padZeros3 (m : ℕ) : String :=
  if m < 10 then "00" ++ toString m
  else if m < 100 then "0" ++ toString m
  else toString m

def toFixed3 (q : ℚ) : String :=
  let n : Int := Int.floor (q * 1000 + 1 / 2)
  let sign := if n < 0 then "-" else ""
  let a := n.natAbs
  sign ++ toString (a / 1000) ++ "." ++ padZeros3 (a % 1000)

/-! ### LocationLabeler (build.js 417-520, 554-583) -/

/-- `(capture.park || capture.site || '').trim()` (build.js 419). -/
def parkSiteLabel (g : GeoCapture) : String := (strOr g.park (strOr g.site "")).trim

/-- `(capture.city || '').trim()` (build.js 472, 479). -/
def cityLabel (g : GeoCapture) : String := (strOr g.city "").trim

/-- An entry of `parkEntries` / `cityEntries` (build.js 429-450, 491-508). -/
structure LabelEntry where
  label : String
  normalized : String
  count : ℕ
  centroid : ℚ × ℚ
deriving DecidableEq

/-- Arithmetic-mean centroid of a cluster (build.js 384-393; unguarded
division, reachable only with a nonempty cluster). -/
def clusterCentroid (pts : List TimedGeo) : ℚ × ℚ :=
  ((pts.map (fun p => p.geo.lat)).sum / pts.length,
   (pts.map (fun p => p.geo.lon)).sum / pts.length)

/-- Centroid of a label group (build.js 434-443, 492-501): the JS code
guards the division with `|| 1`. -/
def entryCentroid (pts : List TimedGeo) : ℚ × ℚ :=
  let d : ℚ := if pts.length = 0 then 1 else (pts.length : ℚ)
  ((pts.map (fun p => p.geo.lat)).sum / d, (pts.map (fun p => p.geo.lon)).sum / d)

/-- `Map.set` of the best-quality label under a normalized key, preserving
insertion order (build.js 424-427). -/
def upsertBestLabel (acc : List (String × String)) (key val : String) :
    List (String × String) :=
  match acc with
  | [] => [(key, val)]
  | (k, v) :: rest =>
    if k = key then
      (k, if labelQuality v < labelQuality val then val else v) :: rest
    else (k, v) :: upsertBestLabel rest key val

/-- `parkLabelsByKey` values (build.js 417-428). -/
def parkLabels (geo : List TimedGeo) : List String :=
  (geo.foldl
    (fun acc g =>
      let value := parkSiteLabel g.geo
      let key := normalizeLocationToken value
      if value.isEmpty ∨ key.isEmpty then acc else upsertBestLabel acc key value)
    []).map Prod.snd

/-- `parkEntries` before sorting (build.js 429-450). -/
def parkEntries (geo : List TimedGeo) : List LabelEntry :=
  (parkLabels geo).map
    (fun label =>
      let normalized := normalizeLocationToken label
      let grp := geo.filter (fun g => normalizeLocationToken (parkSiteLabel g.geo) = normalized)
      ⟨label, normalized, grp.length, entryCentroid grp⟩)

/-- The comparator `b.count - a.count || labelQuality(b.label) -
labelQuality(a.label)` (build.js 451, 509) as a total preorder. -/
def entryOrderLe (a b : LabelEntry) : Prop :=
  b.count < a.count ∨ (a.count = b.count ∧ labelQuality b.label ≤ labelQuality a.label)

instance : DecidableRel entryOrderLe := fun a b => by unfold entryOrderLe; infer_instance

def sortEntries (l : List LabelEntry) : List LabelEntry := List.insertionSort entryOrderLe l

/-- `reduce(min, POSITIVE_INFINITY)` over the selected centroids, in miles
(build.js 461-464, 564-567); `none` is `+∞` (empty selection). -/
def minMilesTo (distKm : ℚ × ℚ → ℚ × ℚ → ℚ) (centers : List (ℚ × ℚ)) (c : ℚ × ℚ) :
    Option ℚ :=
  centers.foldl
    (fun m center =>
      let miles := distKm c center / KM_PER_MILE
      match m with
      | none => some miles
      | some m' => some (min m' miles))
    none

/-- `minMiles >= TITLE_APPEND_DISTANCE_MILES` with `+∞ >= 3` true. -/
def farEnough (m : Option ℚ) : Bool :=
  match m with
  | none => true
  | some q => TITLE_APPEND_DISTANCE_MILES ≤ q

/-- One iteration of the park-anchor selection loop (build.js 455-469):
while fewer than two anchors are selected the entry is pushed
unconditionally; afterwards it is pushed iff its centroid is at least
3 miles from every selected centroid. -/
def selectParksStep (distKm : ℚ × ℚ → ℚ × ℚ → ℚ)
    (st : List String × List (ℚ × ℚ)) (e : LabelEntry) : List String × List (ℚ × ℚ) :=
  if st.1.length < 2 then (st.1 ++ [e.label], st.2 ++ [e.centroid])
  else if farEnough (minMilesTo distKm st.2 e.centroid) then
    (st.1 ++ [e.label], st.2 ++ [e.centroid])
  else st

/-- The `parks` / `selectedParkCentroids` pair (build.js 453-469). -/
def selectParks (distKm : ℚ × ℚ → ℚ × ℚ → ℚ) (entries : List LabelEntry) :
    List String × List (ℚ × ℚ) :=
  entries.foldl (selectParksStep distKm) ([], [])

/-- The `cities` array (build.js 470-476): distinct nonempty trimmed city
values in first-occurrence order. -/
def citiesOf (geo : List TimedGeo) : List String :=
  geo.foldl
    (fun acc g =>
      let value := cityLabel g.geo
      if value.isEmpty ∨ value ∈ acc then acc else acc ++ [value])
    []

/-- `cityEntriesByKey` upsert (build.js 477-490): push the capture into the
group and keep the better-quality label. -/
def upsertCity (acc : List (String × String × List TimedGeo)) (key label : String)
    (g : TimedGeo) : List (String × String × List TimedGeo) :=
  match acc with
  | [] => [(key, label, [g])]
  | (k, lbl, pts) :: rest =>
    if k = key then
      (k, (if labelQuality lbl < labelQuality label then label else lbl), pts ++ [g]) :: rest
    else (k, lbl, pts) :: upsertCity rest key label g

def cityGroups (geo : List TimedGeo) : List (String × String × List TimedGeo) :=
  geo.foldl
    (fun acc g =>
      let label := cityLabel g.geo
      let key := normalizeLocationToken label
      if label.isEmpty ∨ key.isEmpty ∨ isGenericAdmin label then acc
      else upsertCity acc key label g)
    []

/-- `cityEntries`, sorted (build.js 491-509). -/
def cityEntriesOf (geo : List TimedGeo) : List LabelEntry :=
  sortEntries
    ((cityGroups geo).map
      (fun kg =>
        ⟨kg.2.1, normalizeLocationToken kg.2.1, kg.2.2.length, entryCentroid kg.2.2⟩))

/-- The `"city, state, country"`-or-coordinates fallback of a capture's best
detail label (build.js 516-518). -/
def bestLocationFallback (g : GeoCapture) : String :=
  let parts := [g.city, g.state, g.country].filterMap
    (fun o =>
      match o with
      | some s => if s.isEmpty then none else some s
      | none => none)
  let joined := String.intercalate ", " parts
  if joined.isEmpty then toFixed3 g.lat ++ ", " ++ toFixed3 g.lon else joined

/-- A capture's best detail label (build.js 510-519): its `locationLabel`,
else `"city, state, country"` joining nonempty parts, else its own
coordinates to three decimals. -/
def bestLocationLabel (g : GeoCapture) : String :=
  match g.locationLabel with
  | some s => if s.isEmpty then bestLocationFallback g else s
  | none => bestLocationFallback g

/-- The `locations` detail list (build.js 510-520). -/
def locationsOf (geo : List TimedGeo) : List String :=
  firstDedup (geo.map (fun g => bestLocationLabel g.geo))

/-- One iteration of the title-extension loop over `cityEntries`
(build.js 556-572). -/
def extendTitleStep (distKm : ℚ × ℚ → ℚ × ℚ → ℚ)
    (st : List String × List (ℚ × ℚ)) (e : LabelEntry) : List String × List (ℚ × ℚ) :=
  if 4 ≤ st.1.length then st
  else if st.1.any (fun label => normalizeLocationToken label = e.normalized) then st
  else if farEnough (minMilesTo distKm st.2 e.centroid) then
    (st.1 ++ [e.label], st.2 ++ [e.centroid])
  else st

/-- `titleLabels` / `titleCenters` after the city-extension loop
(build.js 554-573): cities are appended only when a park anchor exists. -/
def titleState (distKm : ℚ × ℚ → ℚ × ℚ → ℚ) (parksSel : List String × List (ℚ × ℚ))
    (cityEs : List LabelEntry) : List String × List (ℚ × ℚ) :=
  if parksSel.1.isEmpty then parksSel
  else cityEs.foldl (extendTitleStep distKm) parksSel

/-- `locationTitle` (build.js 554-583). -/
def locationTitleOf (distKm : ℚ × ℚ → ℚ × ℚ → ℚ) (geo : List TimedGeo) : String :=
  let parksSel := selectParks distKm (sortEntries (parkEntries geo))
  let parks := parksSel.1
  let cities := citiesOf geo
  let locations := locationsOf geo
  let titleLabels := (titleState distKm parksSel (cityEntriesOf geo)).1
  let preferred := titleLabels.filter (fun l => ¬ isGenericAdmin l)
  let displayLabels := if preferred.isEmpty then titleLabels else preferred
  if ¬ displayLabels.isEmpty then String.intercalate ", " displayLabels
  else if ¬ parks.isEmpty then String.intercalate ", " (parks.take 2)
  else if ¬ cities.isEmpty then String.intercalate ", " (cities.take 2)
  else
    let cen := clusterCentroid geo
    let h := locations.headD ""
    if h.isEmpty then toFixed3 cen.1 ++ ", " ++ toFixed3 cen.2 else h

/-! ### Trip assembly (build.js 522-624) -/

structure Trip where
  id : String
  dayKey : String
  locationTitle : String
  durationLabel : String
  imageCount : ℕ
  speciesCount : ℕ
  topSpeciesLabel : String
  hasNewSpecies : Bool
  newSpeciesLabel : String
  gearLabel : String
  species : List String
  locations : List String
  centroidLat : ℚ
  centroidLon : ℚ
  maxSpreadKm : ℚ
  captures : List TimedCapture
  cover : TimedCapture
deriving DecidableEq

/-- Placeholder for the unreachable empty-cluster accesses
(`captures[0]` on a nonempty list). -/
def dfltTimed : TimedCapture := ⟨⟨"", "", "", none, none⟩, 0⟩

/-- Build one trip from a nonempty geo-cluster and the day's extra captures
(build.js 383-624; the provisional `id` is assigned by `createTrips` and
overwritten by the final ranking). -/
def buildTrip (distKm : ℚ × ℚ → ℚ × ℚ → ℚ) (parseDate : String → Option Int)
    (firstSeen : String → Option String) (dayKey : String)
    (geo : List TimedGeo) (extras : List Capture) : Trip :=
  let captures := List.insertionSort (fun a b : TimedCapture => a.time ≤ b.time)
    (mergeExtras parseDate geo extras)
  let centroid := clusterCentroid geo
  let maxSpreadKm := geo.foldl (fun m g => max m (distKm centroid (posOf g))) 0
  let species := speciesListOf captures
  let firstCapture := captures.headD dfltTimed
  let lastCapture := captures.getLastD dfltTimed
  let durationMinutes : Int :=
    max 0 (jsRound (((lastCapture.time - firstCapture.time : Int) : ℚ) / 60000))
  let newSpecies := species.filter (fun name => firstSeen name = some dayKey)
  let hasNew := !newSpecies.isEmpty
  { id := "",
    dayKey := dayKey,
    locationTitle := locationTitleOf distKm geo,
    durationLabel := formatDurationMinutes durationMinutes,
    imageCount := captures.length,
    speciesCount := species.length,
    topSpeciesLabel := topSpeciesLabelOf captures,
    hasNewSpecies := hasNew,
    newSpeciesLabel := if hasNew then String.intercalate ", " newSpecies else "None",
    gearLabel := gearLabelOf captures,
    species := species,
    locations := locationsOf geo,
    centroidLat := centroid.1,
    centroidLon := centroid.2,
    maxSpreadKm := maxSpreadKm,
    captures := captures,
    cover := captures.getLastD dfltTimed }

/-! ### TripRanker (build.js 627-634) -/

/-- The final comparator: DayKey descending (string comparison on
`YYYY-MM-DD` keys, as `localeCompare` yields on them), then `imageCount`
descending. -/
def tripOrderLe (a b : Trip) : Prop :=
  if a.dayKey = b.dayKey then b.imageCount ≤ a.imageCount else b.dayKey < a.dayKey

instance : DecidableRel tripOrderLe := fun a b => by unfold tripOrderLe; infer_instance

/-- Final sort plus sequential id reassignment (build.js 627-634). -/
def rankTrips (trips : List Trip) : List Trip :=
  (List.insertionSort tripOrderLe trips).mapIdx
    (fun i t => { t with id := "trip-" ++ toString (i + 1) })

/-- `String(n).padStart(2, '0')`. -/
def padStart2 (s : String) : String :=
  if 2 ≤ s.length then s else if s.length = 1 then "0" ++ s else "00"

/-- The whole engine `createTripsFromMapPoints` (build.js 309-635):
day bucketing, per-day clustering, extra-capture merging, summarisation,
provisional ids in discovery order, final ranking. -/
def createTrips (distKm : ℚ × ℚ → ℚ × ℚ → ℚ) (radius : ℚ)
    (parseDate : String → Option Int) (dayOf : Int → String)
    (extrasByDay : String → List Capture) (firstSeen : String → Option String)
    (points : List GeoCapture) : List Trip :=
  let buckets := bucketByDay parseDate dayOf points
  let raw := buckets.foldl
    (fun acc day =>
      acc ++ (dayClusters distKm radius day.2).map
        (fun g => buildTrip distKm parseDate firstSeen day.1 g (extrasByDay day.1)))
    []
  let withIds := raw.mapIdx
    (fun i t => { t with id := t.dayKey ++ "-" ++ padStart2 (toString (i + 1)) })
  rankTrips withIds

/-- Reference formulation of the anchor-selection rule actually implemented
(build.js 453-469), written from its observable behaviour: candidates are
processed in rank order; while fewer than two anchors are selected a
candidate is accepted unconditionally, and afterwards a candidate is
accepted iff its centroid is at least `TITLE_APPEND_DISTANCE_MILES` from
every already-selected centroid, with no cap on the number of anchors. -/
def selectParksSpecGo (distKm : ℚ × ℚ → ℚ × ℚ → ℚ) :
    List String × List (ℚ × ℚ) → List LabelEntry → List String × List (ℚ × ℚ)
  | st, [] => st
  | st, e :: rest =>
    if st.1.length < 2 ∨
        ∀ c ∈ st.2, TITLE_APPEND_DISTANCE_MILES ≤ distKm e.centroid c / KM_PER_MILE then
      selectParksSpecGo distKm (st.1 ++ [e.label], st.2 ++ [e.centroid]) rest
    else selectParksSpecGo distKm st rest

def selectParksSpec (distKm : ℚ × ℚ → ℚ × ℚ → ℚ) (entries : List LabelEntry) :
    List String × List (ℚ × ℚ) :=
  selectParksSpecGo distKm ([], []) entries

/-- Total tally of the counts recorded for key `k` (used to state the
correctness of `countsList`; with distinct keys it is the key's entry). -/
def entryCount (acc : List (String × ℕ)) (k : String) : ℕ :=
  ((acc.filter (fun p => p.1 = k)).map Prod.snd).sum

/-! ### Concrete instances used in witnesses and counterexamples -/

/-- Kernel-reducible absolute value on ℚ. -/
def absQ (q : ℚ) : ℚ := if q < 0 then -q else q

/-- A concrete symmetric computable stand-in for the abstract distance
parameter in concrete scenarios. -/
def taxiDist : ℚ × ℚ → ℚ × ℚ → ℚ := fun a b => absQ (a.1 - b.1) + absQ (a.2 - b.2)

def capBlueJay : Capture := ⟨"Blue Jay", "a.jpg", "da", some "Cam1", some "LensA"⟩

def capRobin : Capture := ⟨"Robin", "b.jpg", "db", some "Cam1", some "LensB"⟩

/-- A non-geotagged (extra) capture of the same day. -/
def capCrow : Capture := ⟨"Crow", "d.jpg", "dd", none, none⟩

def geoNear : GeoCapture := ⟨capBlueJay, 40, -74, none, none, none, none, none, none⟩

def geoNear2 : GeoCapture := ⟨capRobin, 41, -75, none, none, none, none, none, none⟩

/-- Far from `geoNear`: a second cluster on the same day. -/
def geoFar : GeoCapture := ⟨capRobin, 100, 50, none, none, none, none, none, none⟩

def parseDate0 : String → Option Int := fun s =>
  if s = "da" then some 0
  else if s = "db" then some (45 * 60000)
  else if s = "dd" then some (10 * 60000)
  else none

def dayOf0 : Int → String := fun _ => "2024-01-01"

def extras0 : String → List Capture := fun k =>
  if k = "2024-01-01" then [capCrow] else []

/-- Ranked park candidates for the C3 counterexample: the second shares the
first one's centroid (0 miles apart), the third is far from both. -/
def entryP1 : LabelEntry := ⟨"Park One", "park one", 5, (0, 0)⟩

def entryP2 : LabelEntry := ⟨"Park Two", "park two", 4, (0, 0)⟩

def entryP3 : LabelEntry := ⟨"Park Three", "park three", 3, (100, 100)⟩

/-- A label-free two-capture cluster for the C8 counterexample. -/
def c8Geo : List TimedGeo := [⟨geoNear, 0⟩, ⟨geoNear2, 45 * 60000⟩]

/-- A cluster whose single capture has a free-form `locationLabel`. -/
def c8GeoLabelled : List TimedGeo :=
  [⟨⟨capBlueJay, 40, -74, some "Lakeside Refuge", none, none, none, none, none⟩, 0⟩]

/-! ### Theorems -/

theorem mem_newNeighbors {n : ℕ} {adj : Fin n → Fin n → Bool} {visited : Finset (Fin n)}
    {cur j : Fin n} :
    j ∈ newNeighbors adj visited cur ↔ j ∉ visited ∧ adj cur j = true := by
  simp [newNeighbors, List.mem_filter, List.mem_finRange]

theorem newNeighbors_nodup {n : ℕ} (adj : Fin n → Fin n → Bool) (visited : Finset (Fin n))
    (cur : Fin n) : (newNeighbors adj visited cur).Nodup :=
  (List.nodup_finRange n).filter _

theorem connectedIdx_symm {n : ℕ} {adj : Fin n → Fin n → Bool}
    (hsymm : ∀ i j, adj i j = adj j i) {i j : Fin n}
    (h : connectedIdx adj i j) : connectedIdx adj j i := by
  refine Relation.ReflTransGen.symmetric ?_ h
  intro a b hab
  show adj b a = true
  rw [hsymm]
  exact hab

theorem closed_absorbs {n : ℕ} {adj : Fin n → Fin n → Bool} {V : Finset (Fin n)}
    (hcl : ∀ v ∈ V, ∀ w, adj v w = true → w ∈ V) {i j : Fin n} (hi : i ∈ V)
    (h : connectedIdx adj i j) : j ∈ V := by
  induction h with
  | refl => exact hi
  | tail _ hbc ih => exact hcl _ ih _ hbc

theorem connected_avoids_closed {n : ℕ} {adj : Fin n → Fin n → Bool}
    (hsymm : ∀ i j, adj i j = adj j i) {V : Finset (Fin n)}
    (hcl : ∀ v ∈ V, ∀ w, adj v w = true → w ∈ V) {s v : Fin n}
    (hs : s ∉ V) (h : connectedIdx adj s v) : v ∉ V := by
  induction h with
  | refl => exact hs
  | tail _ hbc ih =>
    intro hcV
    exact ih (hcl _ hcV _ (by rw [hsymm]; exact hbc))

theorem bfsInv_step {n : ℕ} {adj : Fin n → Fin n → Bool} {s : Fin n} {V₀ : Finset (Fin n)}
    {cur : Fin n} {rest : List (Fin n)} {visited : Finset (Fin n)} {comp : List (Fin n)}
    (inv : BfsInv adj s V₀ (cur :: rest) visited comp) :
    BfsInv adj s V₀ ((newNeighbors adj visited cur).reverse ++ rest)
      (visited ∪ (newNeighbors adj visited cur).toFinset) (comp ++ [cur]) := by
  have hcurq : cur ∈ cur :: rest := List.mem_cons_self _ _
  have hcurv : cur ∈ visited := inv.queue_visited cur hcurq
  have hcurc : connectedIdx adj s cur := inv.queue_conn cur hcurq
  refine ⟨?_, ?_, ?_, ?_, ?_, ?_, ?_, ?_, ?_, ?_⟩
  · intro q hq
    rcases List.mem_append.mp hq with h | h
    · exact Finset.mem_union_right _ (List.mem_toFinset.mpr (List.mem_reverse.mp h))
    · exact Finset.mem_union_left _ (inv.queue_visited q (List.mem_cons_of_mem _ h))
  · intro q hq
    rcases List.mem_append.mp hq with h | h
    · exact hcurc.tail (mem_newNeighbors.mp (List.mem_reverse.mp h)).2
    · exact inv.queue_conn q (List.mem_cons_of_mem _ h)
  · intro v hv
    rcases Finset.mem_union.mp hv with h | h
    · exact inv.visited_conn v h
    · exact Or.inr (hcurc.tail (mem_newNeighbors.mp (List.mem_toFinset.mp h)).2)
  · intro v hv
    rcases List.mem_append.mp hv with h | h
    · exact inv.comp_conn v h
    · rw [List.mem_singleton.mp h]; exact hcurc
  · intro v hv
    rcases Finset.mem_union.mp hv with h | h
    · rcases inv.processed_closed v h with hq | hcl
      · rcases List.mem_cons.mp hq with hvc | hvr
        · subst hvc
          refine Or.inr (fun w hw => ?_)
          by_cases hwv : w ∈ visited
          · exact Finset.mem_union_left _ hwv
          · exact Finset.mem_union_right _
              (List.mem_toFinset.mpr (mem_newNeighbors.mpr ⟨hwv, hw⟩))
        · exact Or.inl (List.mem_append.mpr (Or.inr hvr))
      · exact Or.inr (fun w hw => Finset.mem_union_left _ (hcl w hw))
    · exact Or.inl
        (List.mem_append.mpr (Or.inl (List.mem_reverse.mpr (List.mem_toFinset.mp h))))
  · intro v hv
    rcases Finset.mem_union.mp hv with h | h
    · rcases inv.visited_cover v h with h0 | hq | hc
      · exact Or.inl h0
      · rcases List.mem_cons.mp hq with hvc | hvr
        · subst hvc
          exact Or.inr (Or.inr (List.mem_append.mpr (Or.inr (List.mem_singleton.mpr rfl))))
        · exact Or.inr (Or.inl (List.mem_append.mpr (Or.inr hvr)))
      · exact Or.inr (Or.inr (List.mem_append.mpr (Or.inl hc)))
    · exact Or.inr
        (Or.inl (List.mem_append.mpr (Or.inl (List.mem_reverse.mpr (List.mem_toFinset.mp h)))))
  · exact inv.base_subset.trans Finset.subset_union_left
  · exact Finset.mem_union_left _ inv.start_visited
  · intro v hv
    rcases List.mem_append.mp hv with h | h
    · exact Finset.mem_union_left _ (inv.comp_visited v h)
    · rw [List.mem_singleton.mp h]; exact Finset.mem_union_left _ hcurv
  · rcases inv.start_in with h | h
    · exact Or.inl (List.mem_append.mpr (Or.inl h))
    · rcases List.mem_cons.mp h with hsc | hsr
      · exact Or.inl (List.mem_append.mpr (Or.inr (by rw [hsc]; exact List.mem_singleton.mpr rfl)))
      · exact Or.inr (List.mem_append.mpr (Or.inr hsr))

theorem bfsAux_inv {n : ℕ} {adj : Fin n → Fin n → Bool} {s : Fin n} {V₀ : Finset (Fin n)}
    (fuel : ℕ) :
    ∀ (queue : List (Fin n)) (visited : Finset (Fin n)) (comp : List (Fin n)),
      2 * (n - visited.card) + queue.length ≤ fuel →
      BfsInv adj s V₀ queue visited comp →
      BfsInv adj s V₀ [] (bfsAux adj fuel queue visited comp).2
        (bfsAux adj fuel queue visited comp).1 := by
  induction fuel with
  | zero =>
    intro queue visited comp hm inv
    cases queue with
    | nil => simpa only [bfsAux] using inv
    | cons cur rest => simp at hm
  | succ fuel ih =>
    intro queue visited comp hm inv
    cases queue with
    | nil => simpa only [bfsAux] using inv
    | cons cur rest =>
      simp only [bfsAux]
      apply ih
      · have hnodup := newNeighbors_nodup adj visited cur
        have hdisj : Disjoint visited (newNeighbors adj visited cur).toFinset := by
          rw [Finset.disjoint_right]
          intro a ha
          exact (mem_newNeighbors.mp (List.mem_toFinset.mp ha)).1
        have hcard : (visited ∪ (newNeighbors adj visited cur).toFinset).card =
            visited.card + (newNeighbors adj visited cur).length := by
          rw [Finset.card_union_of_disjoint hdisj, List.toFinset_card_of_nodup hnodup]
        have hle : (visited ∪ (newNeighbors adj visited cur).toFinset).card ≤ n := by
          simpa [Fintype.card_fin] using
            Finset.card_le_univ (visited ∪ (newNeighbors adj visited cur).toFinset)
        simp only [List.length_append, List.length_reverse, List.length_cons] at hm ⊢
        omega
      · exact bfsInv_step inv

theorem clInv_step {n : ℕ} {adj : Fin n → Fin n → Bool}
    (hsymm : ∀ i j, adj i j = adj j i) {done : List (Fin n)}
    {visited : Finset (Fin n)} {acc : List (List (Fin n))}
    (inv : ClInv adj done visited acc) (i : Fin n) :
    ClInv adj (done ++ [i]) (clustersStep adj (visited, acc) i).1
      (clustersStep adj (visited, acc) i).2 := by
  by_cases hi : i ∈ visited
  · simp only [clustersStep, if_pos hi]
    refine ⟨inv.covered, inv.acc_sub, inv.closed, ?_, inv.comp_char, inv.disj⟩
    intro j hj
    rcases List.mem_append.mp hj with h | h
    · exact inv.done_visited j h
    · rw [List.mem_singleton.mp h]; exact hi
  · simp only [clustersStep, if_neg hi]
    have inv0 : BfsInv adj i visited [i] (insert i visited) [] := by
      refine ⟨?_, ?_, ?_, ?_, ?_, ?_, ?_, ?_, ?_, ?_⟩
      · intro q hq; rw [List.mem_singleton.mp hq]; exact Finset.mem_insert_self _ _
      · intro q hq; rw [List.mem_singleton.mp hq]; exact Relation.ReflTransGen.refl
      · intro v hv
        rcases Finset.mem_insert.mp hv with h | h
        · exact Or.inr (by rw [h]; exact Relation.ReflTransGen.refl)
        · exact Or.inl h
      · intro v hv; exact absurd hv (List.not_mem_nil v)
      · intro v hv
        rcases Finset.mem_insert.mp hv with h | h
        · exact Or.inl (by rw [h]; exact List.mem_singleton.mpr rfl)
        · exact Or.inr (fun w hw => Finset.mem_insert_of_mem (inv.closed v h w hw))
      · intro v hv
        rcases Finset.mem_insert.mp hv with h | h
        · exact Or.inr (Or.inl (by rw [h]; exact List.mem_singleton.mpr rfl))
        · exact Or.inl h
      · exact Finset.subset_insert _ _
      · exact Finset.mem_insert_self _ _
      · intro v hv; exact absurd hv (List.not_mem_nil v)
      · exact Or.inr (List.mem_singleton.mpr rfl)
    have hm : 2 * (n - (insert i visited).card) + [i].length ≤ 2 * n + 1 := by
      have : (insert i visited).card ≤ n := by
        simpa [Fintype.card_fin] using Finset.card_le_univ (insert i visited)
      simp only [List.length_singleton]
      omega
    have endInv := @bfsAux_inv n adj i visited
      (2 * n + 1) [i] (insert i visited) [] hm inv0
    set r := bfsAux adj (2 * n + 1) [i] (insert i visited) [] with hr
    have closedF : ∀ v ∈ r.2, ∀ w, adj v w = true → w ∈ r.2 := by
      intro v hv
      rcases endInv.processed_closed v hv with h | h
      · exact absurd h (List.not_mem_nil v)
      · exact h
    have hiComp : i ∈ r.1 := by
      rcases endInv.start_in with h | h
      · exact h
      · exact absurd h (List.not_mem_nil i)
    have compMem : ∀ v, v ∈ r.1 ↔ connectedIdx adj i v := by
      intro v
      constructor
      · exact endInv.comp_conn v
      · intro h
        have hv2 : v ∈ r.2 := closed_absorbs closedF endInv.start_visited h
        rcases endInv.visited_cover v hv2 with h0 | hq | hc
        · exact absurd h0 (connected_avoids_closed hsymm inv.closed hi h)
        · exact absurd hq (List.not_mem_nil v)
        · exact hc
    have newFresh : ∀ v ∈ r.1, v ∉ visited := by
      intro v hv
      exact connected_avoids_closed hsymm inv.closed hi ((compMem _).mp hv)
    refine ⟨?_, ?_, closedF, ?_, ?_, ?_⟩
    · intro v hv
      rcases endInv.visited_cover v hv with h0 | hq | hc
      · rcases inv.covered v h0 with ⟨c, hc, hvc⟩
        exact ⟨c, List.mem_append.mpr (Or.inl hc), hvc⟩
      · exact absurd hq (List.not_mem_nil v)
      · exact ⟨r.1, List.mem_append.mpr (Or.inr (List.mem_singleton.mpr rfl)), hc⟩
    · intro c hc v hv
      rcases List.mem_append.mp hc with h | h
      · exact endInv.base_subset (inv.acc_sub c h v hv)
      · rw [List.mem_singleton.mp h] at hv
        exact endInv.comp_visited v hv
    · intro j hj
      rcases List.mem_append.mp hj with h | h
      · exact endInv.base_subset (inv.done_visited j h)
      · rw [List.mem_singleton.mp h]; exact endInv.start_visited
    · intro c hc u hu v
      rcases List.mem_append.mp hc with h | h
      · exact inv.comp_char c h u hu v
      · rw [List.mem_singleton.mp h] at hu ⊢
        have hiu : connectedIdx adj i u := (compMem _).mp hu
        constructor
        · intro hv
          exact (connectedIdx_symm hsymm hiu).trans ((compMem _).mp hv)
        · intro huv
          exact (compMem _).mpr (hiu.trans huv)
    · intro c₁ hc₁ c₂ hc₂ ⟨v, hv₁, hv₂⟩
      rcases List.mem_append.mp hc₁ with h₁ | h₁ <;>
        rcases List.mem_append.mp hc₂ with h₂ | h₂
      · exact inv.disj c₁ h₁ c₂ h₂ ⟨v, hv₁, hv₂⟩
      · rw [List.mem_singleton.mp h₂] at hv₂
        exact absurd (inv.acc_sub c₁ h₁ v hv₁) (newFresh v hv₂)
      · rw [List.mem_singleton.mp h₁] at hv₁
        exact absurd (inv.acc_sub c₂ h₂ v hv₂) (newFresh v hv₁)
      · rw [List.mem_singleton.mp h₁, List.mem_singleton.mp h₂]

theorem clInv_fold {n : ℕ} {adj : Fin n → Fin n → Bool}
    (hsymm : ∀ i j, adj i j = adj j i) (l : List (Fin n)) :
    ∀ (done : List (Fin n)) (visited : Finset (Fin n)) (acc : List (List (Fin n))),
      ClInv adj done visited acc →
      ClInv adj (done ++ l) (l.foldl (clustersStep adj) (visited, acc)).1
        (l.foldl (clustersStep adj) (visited, acc)).2 := by
  induction l with
  | nil => intro done visited acc inv; simpa using inv
  | cons x xs ih =>
    intro done visited acc inv
    have h1 := clInv_step hsymm inv x
    have h2 := ih (done ++ [x]) (clustersStep adj (visited, acc) x).1
      (clustersStep adj (visited, acc) x).2 h1
    simpa [List.append_assoc] using h2

theorem clInv_clusters {n : ℕ} {adj : Fin n → Fin n → Bool}
    (hsymm : ∀ i j, adj i j = adj j i) :
    ClInv adj (List.finRange n)
      (((List.finRange n).foldl (clustersStep adj) (∅, [])).1) (clusters adj) := by
  have h0 : ClInv adj [] (∅ : Finset (Fin n)) [] := by
    refine ⟨?_, ?_, ?_, ?_, ?_, ?_⟩ <;> intro v hv <;> simp_all
  simpa [clusters] using clInv_fold hsymm (List.finRange n) [] ∅ [] h0

theorem clusters_mem_iff {n : ℕ} {adj : Fin n → Fin n → Bool}
    (hsymm : ∀ i j, adj i j = adj j i) (i j : Fin n) :
    (∃ c ∈ clusters adj, i ∈ c ∧ j ∈ c) ↔ connectedIdx adj i j := by
  have inv := clInv_clusters hsymm
  constructor
  · rintro ⟨c, hc, hi, hj⟩
    exact (inv.comp_char c hc i hi j).mp hj
  · intro h
    have hiv : i ∈ ((List.finRange n).foldl (clustersStep adj) (∅, [])).1 :=
      inv.done_visited i (List.mem_finRange i)
    rcases inv.covered i hiv with ⟨c, hc, hic⟩
    exact ⟨c, hc, hic, (inv.comp_char c hc i hic j).mpr h⟩

theorem clusters_existsUnique {n : ℕ} {adj : Fin n → Fin n → Bool}
    (hsymm : ∀ i j, adj i j = adj j i) (i : Fin n) :
    ∃! c, c ∈ clusters adj ∧ i ∈ c := by
  have inv := clInv_clusters hsymm
  have hiv : i ∈ ((List.finRange n).foldl (clustersStep adj) (∅, [])).1 :=
    inv.done_visited i (List.mem_finRange i)
  rcases inv.covered i hiv with ⟨c, hc, hic⟩
  refine ⟨c, ⟨hc, hic⟩, ?_⟩
  rintro c' ⟨hc', hic'⟩
  exact inv.disj c' hc' c hc ⟨i, hic', hic⟩

theorem connectedIdx_reindex {n : ℕ} {adj : Fin n → Fin n → Bool} (e : Fin n ≃ Fin n)
    {i j : Fin n} (h : connectedIdx (fun a b => adj (e a) (e b)) i j) :
    connectedIdx adj (e i) (e j) := by
  induction h with
  | refl => exact Relation.ReflTransGen.refl
  | tail _ hbc ih => exact ih.tail hbc

theorem connectedIdx_reindex_inv {n : ℕ} {adj : Fin n → Fin n → Bool} (e : Fin n ≃ Fin n)
    {i j : Fin n} (h : connectedIdx adj (e i) (e j)) :
    connectedIdx (fun a b => adj (e a) (e b)) i j := by
  have key : ∀ a b : Fin n, connectedIdx adj a b →
      connectedIdx (fun x y => adj (e x) (e y)) (e.symm a) (e.symm b) := by
    intro a b hab
    induction hab with
    | refl => exact Relation.ReflTransGen.refl
    | tail _ hbc ih =>
      refine ih.tail ?_
      show adj (e (e.symm _)) (e (e.symm _)) = true
      simpa [Equiv.apply_symm_apply] using hbc
  simpa using key (e i) (e j) h

/-- **C1.** `SpatialClusterer` (build.js 356-383) produces a partition of the
day's (index-labelled) captures: every capture lies in exactly one cluster;
two captures are co-clustered iff they are joined by a chain of captures with
consecutive pairwise distances each within the radius (`adj` is the decidable
relation `haversineKm … <= clusterRadiusKm`, assumed symmetric as the
haversine formula is); in particular if `d(A,C) ≤ R` and `d(B,C) ≤ R` then
`A` and `B` are co-clustered even when `d(A,B) > R`; and the partition does
not depend on traversal order: relabelling the points by any permutation
yields the same co-clustering relation. -/
theorem spatial_clusterer_partitions_by_connectivity {n : ℕ}
    (adj : Fin n → Fin n → Bool) (hsymm : ∀ i j, adj i j = adj j i) :
    (∀ i : Fin n, ∃! c, c ∈ clusters adj ∧ i ∈ c)
    ∧ (∀ i j : Fin n, (∃ c ∈ clusters adj, i ∈ c ∧ j ∈ c) ↔ connectedIdx adj i j)
    ∧ (∀ i j k : Fin n, adj i k = true → adj j k = true → adj i j = false →
        ∃ c ∈ clusters adj, i ∈ c ∧ j ∈ c)
    ∧ (∀ (e : Fin n ≃ Fin n) (i j : Fin n),
        (∃ c ∈ clusters (fun a b => adj (e a) (e b)), i ∈ c ∧ j ∈ c)
          ↔ ∃ c ∈ clusters adj, e i ∈ c ∧ e j ∈ c) := by
  refine ⟨clusters_existsUnique hsymm, clusters_mem_iff hsymm, ?_, ?_⟩
  · intro i j k hik hjk _
    refine (clusters_mem_iff hsymm i j).mpr ?_
    have h1 : connectedIdx adj i k := Relation.ReflTransGen.single hik
    have h2 : connectedIdx adj k j := by
      refine Relation.ReflTransGen.single ?_
      show adj k j = true
      rw [hsymm]
      exact hjk
    exact h1.trans h2
  · intro e i j
    have hsymm' : ∀ a b, adj (e a) (e b) = adj (e b) (e a) := fun a b => hsymm _ _
    rw [clusters_mem_iff hsymm' i j, clusters_mem_iff hsymm (e i) (e j)]
    exact ⟨connectedIdx_reindex e, connectedIdx_reindex_inv e⟩

/-- Concrete day of three captures `A = 0`, `B = 1`, `C = 2` whose only
within-radius pairs are (A,C) and (B,C): the transitive-connectivity scenario
of the specification. -/
def adjABC : Fin 3 → Fin 3 → Bool := fun i j =>
  decide (i = j) || decide ((i.val, j.val) ∈ [(0, 2), (2, 0), (1, 2), (2, 1)])

/-- Witness for C1: with `d(A,C) ≤ R`, `d(B,C) ≤ R` and `d(A,B) > R`, captures
`A` and `B` land in the same cluster. -/
theorem spatial_clusterer_partitions_by_connectivity_witness :
    (∀ i j, adjABC i j = adjABC j i)
    ∧ adjABC 0 2 = true ∧ adjABC 1 2 = true ∧ adjABC 0 1 = false
    ∧ ∃ c ∈ clusters adjABC, (0 : Fin 3) ∈ c ∧ (1 : Fin 3) ∈ c := by
  refine ⟨by decide, by decide, by decide, by decide, ?_⟩
  exact (spatial_clusterer_partitions_by_connectivity adjABC (by decide)).2.2.1
    0 1 2 (by decide) (by decide) (by decide)

theorem mergeFold_spec (pd : String → Option Int) (extras : List Capture) :
    ∀ (cur : List TimedCapture) (seen : List String),
      seen = cur.map (fun c => captureKey c.core) →
      (∀ t ∈ (extras.foldl (mergeStep pd) (cur, seen)).1,
          t ∈ cur ∨ ∃ e ∈ extras, t = ⟨e, (pd e.dateIso).getD 0⟩ ∧ captureKey e ∉ seen)
      ∧ (∀ e ∈ extras, ∃ t ∈ (extras.foldl (mergeStep pd) (cur, seen)).1,
          captureKey t.core = captureKey e)
      ∧ (∀ t ∈ cur, t ∈ (extras.foldl (mergeStep pd) (cur, seen)).1) := by
  induction extras with
  | nil =>
    intro cur seen _
    exact ⟨fun t ht => Or.inl ht, fun e he => absurd he (List.not_mem_nil e), fun t ht => ht⟩
  | cons e rest ih =>
    intro cur seen hseen
    by_cases h : captureKey e ∈ seen
    · have hstep : mergeStep pd (cur, seen) e = (cur, seen) := by
        simp [mergeStep, h]
      rw [List.foldl_cons, hstep]
      obtain ⟨ih1, ih2, ih3⟩ := ih cur seen hseen
      refine ⟨?_, ?_, ih3⟩
      · intro t ht
        rcases ih1 t ht with h1 | ⟨e', he', heq, hnot⟩
        · exact Or.inl h1
        · exact Or.inr ⟨e', List.mem_cons_of_mem _ he', heq, hnot⟩
      · intro e' he'
        rcases List.mem_cons.mp he' with h1 | h1
        · subst h1
          rw [hseen] at h
          rcases List.mem_map.mp h with ⟨t, ht, hkey⟩
          exact ⟨t, ih3 t ht, hkey⟩
        · exact ih2 e' h1
    · have hstep : mergeStep pd (cur, seen) e =
          (cur ++ [⟨e, (pd e.dateIso).getD 0⟩], seen ++ [captureKey e]) := by
        simp [mergeStep, h]
      rw [List.foldl_cons, hstep]
      have hseen' : seen ++ [captureKey e] =
          (cur ++ [(⟨e, (pd e.dateIso).getD 0⟩ : TimedCapture)]).map
            (fun c => captureKey c.core) := by
        simp [hseen]
      obtain ⟨ih1, ih2, ih3⟩ := ih (cur ++ [⟨e, (pd e.dateIso).getD 0⟩]) _ hseen'
      refine ⟨?_, ?_, ?_⟩
      · intro t ht
        rcases ih1 t ht with h1 | ⟨e', he', heq, hnot⟩
        · rcases List.mem_append.mp h1 with h2 | h2
          · exact Or.inl h2
          · exact Or.inr ⟨e, List.mem_cons_self _ _, List.mem_singleton.mp h2, h⟩
        · refine Or.inr ⟨e', List.mem_cons_of_mem _ he', heq, fun hc => ?_⟩
          exact hnot (List.mem_append.mpr (Or.inl hc))
      · intro e' he'
        rcases List.mem_cons.mp he' with h1 | h1
        · subst h1
          exact ⟨⟨e', (pd e'.dateIso).getD 0⟩,
            ih3 _ (List.mem_append.mpr (Or.inr (List.mem_singleton.mpr rfl))), rfl⟩
        · exact ih2 e' h1
      · intro t ht
        exact ih3 t (List.mem_append.mpr (Or.inl ht))

/-- **C2.** `CaptureMerger` (build.js 400-412): every geo-cluster of a day
receives that day's extra captures — an element of the merged list is either
a cluster capture or an extra whose `(species, filename)` composite key does
not occur among the cluster's captures; every extra's key occurs in the
merged list; all cluster captures are kept; the trip's capture list is the
merged list re-sorted ascending by timestamp; and concretely, on a day with
two geo-clusters, the day's non-geotagged capture appears in both resulting
trips' capture lists. -/
theorem capture_merger_attach_all_dedup_resort
    (distKm : ℚ × ℚ → ℚ × ℚ → ℚ) (parseDate : String → Option Int)
    (firstSeen : String → Option String) (dayKey : String)
    (geo : List TimedGeo) (extras : List Capture) :
    (∀ t ∈ mergeExtras parseDate geo extras,
        t ∈ geo.map TimedGeo.toTimed ∨
          ∃ e ∈ extras, t = ⟨e, (parseDate e.dateIso).getD 0⟩ ∧
            captureKey e ∉ geo.map (fun g => captureKey g.geo.core))
    ∧ (∀ e ∈ extras, ∃ t ∈ mergeExtras parseDate geo extras,
        captureKey t.core = captureKey e)
    ∧ (∀ g ∈ geo, g.toTimed ∈ mergeExtras parseDate geo extras)
    ∧ (buildTrip distKm parseDate firstSeen dayKey geo extras).captures.Perm
        (mergeExtras parseDate geo extras)
    ∧ List.Sorted (fun a b : TimedCapture => a.time ≤ b.time)
        (buildTrip distKm parseDate firstSeen dayKey geo extras).captures
    ∧ ((createTrips taxiDist 30 parseDate0 dayOf0 extras0 (fun _ => none)
          [geoNear, geoFar]).length = 2
        ∧ ∀ t ∈ createTrips taxiDist 30 parseDate0 dayOf0 extras0 (fun _ => none)
            [geoNear, geoFar], ∃ c ∈ t.captures, c.core = capCrow) := by
  have hkeys : (geo.map TimedGeo.toTimed).map (fun c => captureKey c.core) =
      geo.map (fun g => captureKey g.geo.core) := by
    rw [List.map_map]
    rfl
  obtain ⟨h1, h2, h3⟩ := mergeFold_spec parseDate extras (geo.map TimedGeo.toTimed)
    ((geo.map TimedGeo.toTimed).map (fun c => captureKey c.core)) rfl
  haveI : IsTotal TimedCapture (fun a b : TimedCapture => a.time ≤ b.time) :=
    ⟨fun a b => le_total a.time b.time⟩
  haveI : IsTrans TimedCapture (fun a b : TimedCapture => a.time ≤ b.time) :=
    ⟨fun _ _ _ hab hbc => le_trans hab hbc⟩
  refine ⟨?_, ?_, ?_, ?_, ?_, ?_⟩
  · intro t ht
    rcases h1 t ht with h | ⟨e, he, heq, hnot⟩
    · exact Or.inl h
    · exact Or.inr ⟨e, he, heq, by rwa [hkeys] at hnot⟩
  · exact h2
  · intro g hg
    exact h3 g.toTimed (List.mem_map_of_mem _ hg)
  · exact List.perm_insertionSort _ _
  · exact List.sorted_insertionSort _ _
  · exact ⟨by with_unfolding_all decide, by with_unfolding_all decide⟩

/-- Witness for C2 at a concrete cluster and extra capture. -/
theorem capture_merger_attach_all_dedup_resort_witness :
    ∃ t ∈ mergeExtras parseDate0 [⟨geoNear, 0⟩] [capCrow],
      captureKey t.core = captureKey capCrow :=
  (capture_merger_attach_all_dedup_resort taxiDist parseDate0 (fun _ => none)
    "2024-01-01" [⟨geoNear, 0⟩] [capCrow]).2.1 capCrow (List.mem_singleton.mpr rfl)

/-- **C10.** Attaching a day's extra captures to a cluster leaves every
location-derived trip field unchanged: centroid, `maxSpreadKm`,
`locationTitle` and the `locations` detail list are computed solely from the
cluster's geotagged members, so they coincide with the trip built from the
same cluster with no extras attached. -/
theorem merger_extras_frame_effect (distKm : ℚ × ℚ → ℚ × ℚ → ℚ)
    (parseDate : String → Option Int) (firstSeen : String → Option String)
    (dayKey : String) (geo : List TimedGeo) (extras : List Capture) :
    (buildTrip distKm parseDate firstSeen dayKey geo extras).centroidLat
        = (buildTrip distKm parseDate firstSeen dayKey geo []).centroidLat
    ∧ (buildTrip distKm parseDate firstSeen dayKey geo extras).centroidLon
        = (buildTrip distKm parseDate firstSeen dayKey geo []).centroidLon
    ∧ (buildTrip distKm parseDate firstSeen dayKey geo extras).maxSpreadKm
        = (buildTrip distKm parseDate firstSeen dayKey geo []).maxSpreadKm
    ∧ (buildTrip distKm parseDate firstSeen dayKey geo extras).locationTitle
        = (buildTrip distKm parseDate firstSeen dayKey geo []).locationTitle
    ∧ (buildTrip distKm parseDate firstSeen dayKey geo extras).locations
        = (buildTrip distKm parseDate firstSeen dayKey geo []).locations :=
  ⟨rfl, rfl, rfl, rfl, rfl⟩

theorem addToBucket_members
    (P : String → TimedGeo → Prop) (acc : List (String × List TimedGeo))
    (k : String) (p : TimedGeo)
    (hacc : ∀ k' l, (k', l) ∈ acc → ∀ q ∈ l, P k' q) (hp : P k p) :
    ∀ k' l, (k', l) ∈ addToBucket acc k p → ∀ q ∈ l, P k' q := by
  induction acc with
  | nil =>
    intro k' l hmem q hq
    simp only [addToBucket, List.mem_singleton, Prod.mk.injEq] at hmem
    obtain ⟨hk, hl⟩ := hmem
    subst hk; subst hl
    rw [List.mem_singleton.mp hq]
    exact hp
  | cons hd tl ih =>
    obtain ⟨k0, l0⟩ := hd
    intro k' l hmem q hq
    by_cases hk : k0 = k
    · simp only [addToBucket, if_pos hk] at hmem
      rcases List.mem_cons.mp hmem with h | h
      · obtain ⟨hk', hl⟩ := Prod.mk.injEq .. ▸ h
        subst hk'; subst hl
        rcases List.mem_append.mp hq with h2 | h2
        · exact hacc k' l0 (List.mem_cons_self _ _) q h2
        · rw [List.mem_singleton.mp h2]; exact hk ▸ hp
      · exact hacc k' l (List.mem_cons_of_mem _ h) q hq
    · simp only [addToBucket, if_neg hk] at hmem
      rcases List.mem_cons.mp hmem with h | h
      · exact hacc k' l (h ▸ List.mem_cons_self _ _) q hq
      · exact ih (fun k'' l'' hm => hacc k'' l'' (List.mem_cons_of_mem _ hm)) k' l h q hq

theorem bucketByDay_members (parseDate : String → Option Int) (dayOf : Int → String)
    (points : List GeoCapture) :
    ∀ k l, (k, l) ∈ bucketByDay parseDate dayOf points →
      ∀ p ∈ l, parseDate p.geo.core.dateIso = some p.time ∧ dayOf p.time = k := by
  have key : ∀ (pts : List GeoCapture) (acc : List (String × List TimedGeo)),
      (∀ k l, (k, l) ∈ acc → ∀ p ∈ l,
        parseDate p.geo.core.dateIso = some p.time ∧ dayOf p.time = k) →
      ∀ k l, (k, l) ∈ pts.foldl
          (fun acc p =>
            match parseDate p.core.dateIso with
            | none => acc
            | some t => addToBucket acc (dayOf t) ⟨p, t⟩) acc →
        ∀ p ∈ l, parseDate p.geo.core.dateIso = some p.time ∧ dayOf p.time = k := by
    intro pts
    induction pts with
    | nil => intro acc hacc; exact hacc
    | cons p ps ih =>
      intro acc hacc
      rw [List.foldl_cons]
      cases hp : parseDate p.core.dateIso with
      | none => simpa [hp] using ih acc hacc
      | some t =>
        simp only [hp]
        exact ih _ (addToBucket_members _ acc (dayOf t) ⟨p, t⟩ hacc ⟨hp, rfl⟩)
  exact key points [] (by intro k l h; exact absurd h (List.not_mem_nil _))

theorem bucketByDay_filter_parseable (parseDate : String → Option Int)
    (dayOf : Int → String) (points : List GeoCapture) :
    bucketByDay parseDate dayOf (points.filter (fun p => (parseDate p.core.dateIso).isSome))
      = bucketByDay parseDate dayOf points := by
  have key : ∀ (pts : List GeoCapture) (acc : List (String × List TimedGeo)),
      (pts.filter (fun p => (parseDate p.core.dateIso).isSome)).foldl
          (fun acc p =>
            match parseDate p.core.dateIso with
            | none => acc
            | some t => addToBucket acc (dayOf t) ⟨p, t⟩) acc
        = pts.foldl
          (fun acc p =>
            match parseDate p.core.dateIso with
            | none => acc
            | some t => addToBucket acc (dayOf t) ⟨p, t⟩) acc := by
    intro pts
    induction pts with
    | nil => intro acc; rfl
    | cons p ps ih =>
      intro acc
      cases hp : parseDate p.core.dateIso with
      | none => simp [List.filter_cons, hp, ih]
      | some t => simp [List.filter_cons, hp, ih]
  exact key points []

/-- **C9.** The engine is total: a capture whose timestamp does not parse is
silently excluded — every bucket member carries a successfully parsed
timestamp whose day is the bucket's key, dropping unparseable captures
changes neither the buckets nor the final trips, and the empty capture list
yields the empty trip list. -/
theorem engine_total_unparseable_excluded (distKm : ℚ × ℚ → ℚ × ℚ → ℚ) (radius : ℚ)
    (parseDate : String → Option Int) (dayOf : Int → String)
    (extrasByDay : String → List Capture) (firstSeen : String → Option String)
    (points : List GeoCapture) :
    (∀ k l, (k, l) ∈ bucketByDay parseDate dayOf points →
        ∀ p ∈ l, parseDate p.geo.core.dateIso = some p.time ∧ dayOf p.time = k)
    ∧ bucketByDay parseDate dayOf
        (points.filter (fun p => (parseDate p.core.dateIso).isSome))
        = bucketByDay parseDate dayOf points
    ∧ createTrips distKm radius parseDate dayOf extrasByDay firstSeen
        (points.filter (fun p => (parseDate p.core.dateIso).isSome))
        = createTrips distKm radius parseDate dayOf extrasByDay firstSeen points
    ∧ createTrips distKm radius parseDate dayOf extrasByDay firstSeen [] = [] := by
  refine ⟨bucketByDay_members parseDate dayOf points,
    bucketByDay_filter_parseable parseDate dayOf points, ?_, rfl⟩
  unfold createTrips
  rw [bucketByDay_filter_parseable]

/-- Witness for C9: a concrete capture with an unparseable timestamp. -/
theorem engine_total_unparseable_excluded_witness :
    parseDate0 (⟨geoNear, 0⟩ : TimedGeo).geo.core.dateIso = some 0
      ∧ dayOf0 0 = "2024-01-01" :=
  (engine_total_unparseable_excluded taxiDist 30 parseDate0 dayOf0 extras0
      (fun _ => none) [geoNear, ⟨⟨"X", "x.jpg", "zz", none, none⟩, 45, -74,
        none, none, none, none, none, none⟩]).1
    "2024-01-01" [⟨geoNear, 0⟩] (by with_unfolding_all decide)
    ⟨geoNear, 0⟩ (List.mem_singleton.mpr rfl)

/-- **C6.** `durationLabel` is `formatDurationMinutes` of the (rounded)
elapsed minutes between the first and last capture of the merged,
time-sorted capture list; zero or negative spans give `"0m"`, a 90-minute
span gives `"1h 30m"`, a 45-minute span gives `"45m"`, and an exact
whole-hour span gives `"Xh"` with no minutes part. -/
theorem duration_label_formats (distKm : ℚ × ℚ → ℚ × ℚ → ℚ)
    (parseDate : String → Option Int) (firstSeen : String → Option String)
    (dayKey : String) (geo : List TimedGeo) (extras : List Capture) :
    ((buildTrip distKm parseDate firstSeen dayKey geo extras).durationLabel
      = formatDurationMinutes (max 0 (jsRound
          (((((buildTrip distKm parseDate firstSeen dayKey geo extras).captures.getLastD
                dfltTimed).time
              - ((buildTrip distKm parseDate firstSeen dayKey geo extras).captures.headD
                dfltTimed).time : Int) : ℚ) / 60000))))
    ∧ (∀ m : Int, m ≤ 0 → formatDurationMinutes m = "0m")
    ∧ formatDurationMinutes 90 = "1h 30m"
    ∧ formatDurationMinutes 45 = "45m"
    ∧ formatDurationMinutes 0 = "0m"
    ∧ (∀ h : Int, 0 < h → formatDurationMinutes (60 * h) = toString h ++ "h")
    ∧ (buildTrip taxiDist parseDate0 (fun _ => none) "2024-01-01"
        [⟨geoNear, 0⟩, ⟨geoNear2, 90 * 60000⟩] []).durationLabel = "1h 30m"
    ∧ (buildTrip taxiDist parseDate0 (fun _ => none) "2024-01-01"
        [⟨geoNear, 0⟩, ⟨geoNear2, 45 * 60000⟩] []).durationLabel = "45m"
    ∧ (buildTrip taxiDist parseDate0 (fun _ => none) "2024-01-01"
        [⟨geoNear, 0⟩] []).durationLabel = "0m" := by
  refine ⟨rfl, ?_, by decide, by decide, by decide, ?_,
    by with_unfolding_all decide, by with_unfolding_all decide,
    by with_unfolding_all decide⟩
  · intro m hm
    simp [formatDurationMinutes, hm]
  · intro h hh
    have h1 : ¬ (60 * h ≤ 0) := by omega
    have h2 : 60 * h / 60 = h := by omega
    have h3 : 60 * h % 60 = 0 := by omega
    have h4 : h ≠ 0 := by omega
    simp [formatDurationMinutes, h1, h2, h3, h4]

/-- Witness for C6: a strictly negative span formats as `"0m"` and a
two-hour span as `"2h"`. -/
theorem duration_label_formats_witness :
    formatDurationMinutes (-5) = "0m" ∧ formatDurationMinutes (60 * 2) = toString (2 : Int) ++ "h" :=
  ⟨(duration_label_formats taxiDist parseDate0 (fun _ => none) "x" [] []).2.1 (-5)
      (by decide),
    (duration_label_formats taxiDist parseDate0 (fun _ => none) "x" [] []).2.2.2.2.2.1 2
      (by decide)⟩

theorem mem_firstDedup {α : Type} [DecidableEq α] (l : List α) (x : α) :
    x ∈ firstDedup l ↔ x ∈ l := by
  have key : ∀ (l : List α) (acc : List α),
      (x ∈ l.foldl (fun acc y => if y ∈ acc then acc else acc ++ [y]) acc
        ↔ x ∈ acc ∨ x ∈ l) := by
    intro l
    induction l with
    | nil => intro acc; simp
    | cons y ys ih =>
      intro acc
      by_cases hy : y ∈ acc
      · rw [List.foldl_cons, if_pos hy, ih]
        simp only [List.mem_cons]
        constructor
        · rintro (h | h)
          · exact Or.inl h
          · exact Or.inr (Or.inr h)
        · rintro (h | h | h)
          · exact Or.inl h
          · exact Or.inl (h ▸ hy)
          · exact Or.inr h
      · rw [List.foldl_cons, if_neg hy, ih]
        simp [List.mem_append, List.mem_cons, or_assoc]
  simpa [firstDedup] using key l []

theorem mem_speciesListOf (captures : List TimedCapture) (name : String) :
    name ∈ speciesListOf captures ↔ ∃ c ∈ captures, c.core.bird = name := by
  unfold speciesListOf
  rw [(List.perm_insertionSort ciLe _).mem_iff, mem_firstDedup]
  exact List.mem_map

/-- **C5.** A species is flagged new for a trip iff `firstSeenDayBySpecies`
maps it to exactly the trip's DayKey: membership in the new-species list is
equivalent to occurring in the trip's captures with first-seen day equal to
the DayKey; `newSpeciesLabel` is the comma-joined list (or `"None"`);
`hasNewSpecies` holds iff some such species exists; and a species whose
global first-seen day strictly precedes the DayKey is never in the list. -/
theorem new_species_flagging (distKm : ℚ × ℚ → ℚ × ℚ → ℚ)
    (parseDate : String → Option Int) (firstSeen : String → Option String)
    (dayKey : String) (geo : List TimedGeo) (extras : List Capture) :
    (∀ name,
        name ∈ (buildTrip distKm parseDate firstSeen dayKey geo extras).species.filter
            (fun n => firstSeen n = some dayKey)
          ↔ (∃ c ∈ (buildTrip distKm parseDate firstSeen dayKey geo extras).captures,
              c.core.bird = name) ∧ firstSeen name = some dayKey)
    ∧ ((buildTrip distKm parseDate firstSeen dayKey geo extras).newSpeciesLabel =
        if ((buildTrip distKm parseDate firstSeen dayKey geo extras).species.filter
            (fun n => firstSeen n = some dayKey)).isEmpty then "None"
        else String.intercalate ", "
          ((buildTrip distKm parseDate firstSeen dayKey geo extras).species.filter
            (fun n => firstSeen n = some dayKey)))
    ∧ ((buildTrip distKm parseDate firstSeen dayKey geo extras).hasNewSpecies = true
        ↔ ∃ name, name ∈ (buildTrip distKm parseDate firstSeen dayKey geo extras).species
            ∧ firstSeen name = some dayKey)
    ∧ (∀ s d, firstSeen s = some d → d < dayKey →
        s ∉ (buildTrip distKm parseDate firstSeen dayKey geo extras).species.filter
          (fun n => firstSeen n = some dayKey)) := by
  have hspecies : (buildTrip distKm parseDate firstSeen dayKey geo extras).species
      = speciesListOf (buildTrip distKm parseDate firstSeen dayKey geo extras).captures := rfl
  refine ⟨?_, ?_, ?_, ?_⟩
  · intro name
    rw [List.mem_filter, hspecies, mem_speciesListOf]
    simp
  · rcases h : ((buildTrip distKm parseDate firstSeen dayKey geo extras).species.filter
        (fun n => firstSeen n = some dayKey)).isEmpty with hfalse | htrue
    · show (if !((buildTrip distKm parseDate firstSeen dayKey geo extras).species.filter
          (fun n => firstSeen n = some dayKey)).isEmpty then _ else _) = _
      rw [h]
      simp only [Bool.not_false, if_true, Bool.not_true, Bool.false_eq_true, if_false]
      rfl
    · show (if !((buildTrip distKm parseDate firstSeen dayKey geo extras).species.filter
          (fun n => firstSeen n = some dayKey)).isEmpty then _ else _) = _
      rw [h]
      simp only [Bool.not_false, if_true, Bool.not_true, Bool.false_eq_true, if_false]
  · show (!((buildTrip distKm parseDate firstSeen dayKey geo extras).species.filter
        (fun n => firstSeen n = some dayKey)).isEmpty) = true ↔ _
    rw [Bool.not_eq_true', List.isEmpty_eq_false_iff_exists_mem]
    constructor
    · rintro ⟨name, hname⟩
      rw [List.mem_filter] at hname
      exact ⟨name, hname.1, by simpa using hname.2⟩
    · rintro ⟨name, hmem, hfs⟩
      exact ⟨name, List.mem_filter.mpr ⟨hmem, by simpa using hfs⟩⟩
  · intro s d hfs hlt hmem
    rw [List.mem_filter] at hmem
    have : firstSeen s = some dayKey := by simpa using hmem.2
    rw [hfs, Option.some.injEq] at this
    exact absurd (this ▸ hlt) (lt_irrefl dayKey)

/-- Witness for C5: with first-seen days `Blue Jay ↦ 2024-01-01` and
`Robin ↦ 2020-05-05`, a 2024-01-01 trip flags only the Blue Jay. -/
theorem new_species_flagging_witness :
    "2020-05-05" < "2024-01-01"
      ∧ "Robin" ∉ (buildTrip taxiDist parseDate0
          (fun s => if s = "Blue Jay" then some "2024-01-01"
            else if s = "Robin" then some "2020-05-05" else none)
          "2024-01-01" [⟨geoNear, 0⟩, ⟨geoNear2, 45 * 60000⟩] []).species.filter
          (fun n => (if n = "Blue Jay" then some "2024-01-01"
            else if n = "Robin" then some "2020-05-05" else none) = some "2024-01-01") :=
  ⟨by with_unfolding_all decide,
    (new_species_flagging taxiDist parseDate0
        (fun s => if s = "Blue Jay" then some "2024-01-01"
          else if s = "Robin" then some "2020-05-05" else none)
        "2024-01-01" [⟨geoNear, 0⟩, ⟨geoNear2, 45 * 60000⟩] []).2.2.2
      "Robin" "2020-05-05" (by decide) (by with_unfolding_all decide)⟩

theorem tripOrderLe_total : ∀ a b : Trip, tripOrderLe a b ∨ tripOrderLe b a := by
  intro a b
  unfold tripOrderLe
  by_cases h : a.dayKey = b.dayKey
  · rw [if_pos h, if_pos h.symm]
    rcases le_total b.imageCount a.imageCount with h1 | h1
    · exact Or.inl h1
    · exact Or.inr h1
  · rw [if_neg h, if_neg (fun hh => h hh.symm)]
    rcases lt_or_gt_of_ne h with h1 | h1
    · exact Or.inr h1
    · exact Or.inl h1

theorem tripOrderLe_trans : ∀ a b c : Trip,
    tripOrderLe a b → tripOrderLe b c → tripOrderLe a c := by
  intro a b c hab hbc
  unfold tripOrderLe at *
  by_cases h1 : a.dayKey = b.dayKey <;> by_cases h2 : b.dayKey = c.dayKey
  · rw [if_pos h1] at hab
    rw [if_pos h2] at hbc
    rw [if_pos (h1.trans h2)]
    exact le_trans hbc hab
  · rw [if_neg h2] at hbc
    rw [if_neg (fun hh => h2 (h1.symm.trans hh))]
    rw [h1]
    exact hbc
  · rw [if_neg h1] at hab
    rw [if_neg (fun hh => h1 (hh.trans h2.symm))]
    rw [← h2]
    exact hab
  · rw [if_neg h1] at hab
    rw [if_neg h2] at hbc
    have h3 : c.dayKey < a.dayKey := lt_trans hbc hab
    have h4 : a.dayKey ≠ c.dayKey := by
      intro hh
      rw [hh] at h3
      exact lt_irrefl _ h3
    rw [if_neg h4]
    exact h3

/-- **C4.** `TripRanker` (build.js 627-634): the final list is sorted by
DayKey descending and, among equal DayKeys, by `imageCount` descending; ids
are reassigned sequentially in final order, so the trip at 0-based position
`i` has id `trip-(i+1)`; the length is preserved. -/
theorem trip_ranker_order_and_ids (trips : List Trip) :
    ((rankTrips trips).length = trips.length)
    ∧ (∀ (i j : ℕ) (hi : i < (rankTrips trips).length)
        (hj : j < (rankTrips trips).length), i < j →
          (((rankTrips trips).get ⟨j, hj⟩).dayKey
              < ((rankTrips trips).get ⟨i, hi⟩).dayKey
            ∨ (((rankTrips trips).get ⟨i, hi⟩).dayKey
                  = ((rankTrips trips).get ⟨j, hj⟩).dayKey
              ∧ ((rankTrips trips).get ⟨j, hj⟩).imageCount
                  ≤ ((rankTrips trips).get ⟨i, hi⟩).imageCount)))
    ∧ (∀ (i : ℕ) (hi : i < (rankTrips trips).length),
        ((rankTrips trips).get ⟨i, hi⟩).id = "trip-" ++ toString (i + 1)) := by
  haveI : IsTotal Trip tripOrderLe := ⟨tripOrderLe_total⟩
  haveI : IsTrans Trip tripOrderLe := ⟨tripOrderLe_trans⟩
  have hids : ∀ (i : ℕ) (hi : i < (rankTrips trips).length),
      ∃ (hi' : i < (List.insertionSort tripOrderLe trips).length),
        (rankTrips trips).get ⟨i, hi⟩ =
          { (List.insertionSort tripOrderLe trips).get ⟨i, hi'⟩ with
              id := "trip-" ++ toString (i + 1) } := by
    intro i hi
    have hi' : i < (List.insertionSort tripOrderLe trips).length := by
      simpa [rankTrips] using hi
    exact ⟨hi', List.get_mapIdx _ _ i hi'⟩
  have hlen : (rankTrips trips).length = trips.length := by
    unfold rankTrips
    rw [List.length_mapIdx, (List.perm_insertionSort tripOrderLe trips).length_eq]
  have hsorted := List.sorted_insertionSort tripOrderLe trips
  refine ⟨hlen, ?_, ?_⟩
  · intro i j hi hj hij
    obtain ⟨hi', hie⟩ := hids i hi
    obtain ⟨hj', hje⟩ := hids j hj
    have hrel := hsorted.rel_get_of_lt
      (show (⟨i, hi'⟩ : Fin (List.insertionSort tripOrderLe trips).length)
          < ⟨j, hj'⟩ from hij)
    rw [hie, hje]
    unfold tripOrderLe at hrel
    split_ifs at hrel with h
    · exact Or.inr ⟨h, hrel⟩
    · exact Or.inl hrel
  · intro i hi
    obtain ⟨hi', hie⟩ := hids i hi
    rw [hie]

/-- Witness for C4 at a concrete two-trip list. -/
theorem trip_ranker_order_and_ids_witness :
    ((rankTrips [buildTrip taxiDist parseDate0 (fun _ => none) "2024-01-01"
        [⟨geoNear, 0⟩] [],
      buildTrip taxiDist parseDate0 (fun _ => none) "2024-02-02"
        [⟨geoNear2, 0⟩] []]).length = 2)
    ∧ (∀ (i : ℕ) (hi : i < (rankTrips [buildTrip taxiDist parseDate0 (fun _ => none)
          "2024-01-01" [⟨geoNear, 0⟩] [],
        buildTrip taxiDist parseDate0 (fun _ => none) "2024-02-02"
          [⟨geoNear2, 0⟩] []]).length),
        ((rankTrips [buildTrip taxiDist parseDate0 (fun _ => none) "2024-01-01"
            [⟨geoNear, 0⟩] [],
          buildTrip taxiDist parseDate0 (fun _ => none) "2024-02-02"
            [⟨geoNear2, 0⟩] []]).get ⟨i, hi⟩).id = "trip-" ++ toString (i + 1)) :=
  ⟨(trip_ranker_order_and_ids _).1,
    (trip_ranker_order_and_ids _).2.2⟩

theorem bumpCount_keys (acc : List (String × ℕ)) (k : String) :
    (bumpCount acc k).map Prod.fst =
      if k ∈ acc.map Prod.fst then acc.map Prod.fst else acc.map Prod.fst ++ [k] := by
  induction acc with
  | nil => simp [bumpCount]
  | cons p rest ih =>
    obtain ⟨k0, n⟩ := p
    by_cases h : k0 = k
    · subst h
      simp [bumpCount]
    · have hstep : bumpCount ((k0, n) :: rest) k = (k0, n) :: bumpCount rest k := by
        simp [bumpCount, h]
      rw [hstep]
      by_cases hk : k ∈ rest.map Prod.fst
      · simp [ih, hk, Ne.symm h]
      · simp [ih, hk, Ne.symm h]

theorem entryCount_cons (q : String × ℕ) (rest : List (String × ℕ)) (k : String) :
    entryCount (q :: rest) k = (if q.1 = k then q.2 else 0) + entryCount rest k := by
  by_cases h : q.1 = k <;> simp [entryCount, List.filter_cons, h]

theorem bumpCount_entryCount (acc : List (String × ℕ)) (k k' : String) :
    entryCount (bumpCount acc k) k' =
      entryCount acc k' + if k' = k then 1 else 0 := by
  induction acc with
  | nil =>
    by_cases h : k' = k
    · subst h
      simp [bumpCount, entryCount]
    · simp [bumpCount, entryCount, List.filter_cons, h, Ne.symm h]
  | cons p rest ih =>
    obtain ⟨k0, n⟩ := p
    by_cases h : k0 = k
    · subst h
      have hstep : bumpCount ((k0, n) :: rest) k0 = (k0, n + 1) :: rest := by
        simp [bumpCount]
      rw [hstep, entryCount_cons, entryCount_cons]
      by_cases h2 : k0 = k'
      · subst h2
        simp
        omega
      · simp only [if_neg h2]
        rw [if_neg (fun hh : k' = k0 => h2 hh.symm)]
        omega
    · have hstep : bumpCount ((k0, n) :: rest) k = (k0, n) :: bumpCount rest k := by
        simp [bumpCount, h]
      rw [hstep, entryCount_cons, entryCount_cons, ih]
      omega

theorem entryCount_eq_zero (acc : List (String × ℕ)) (k : String)
    (h : k ∉ acc.map Prod.fst) : entryCount acc k = 0 := by
  induction acc with
  | nil => simp [entryCount]
  | cons p rest ih =>
    simp only [List.map_cons, List.mem_cons] at h
    push_neg at h
    rw [entryCount_cons, if_neg (fun hh : p.1 = k => h.1 hh.symm), ih h.2]

theorem entryCount_of_mem_nodup (acc : List (String × ℕ))
    (h : (acc.map Prod.fst).Nodup) :
    ∀ p ∈ acc, entryCount acc p.1 = p.2 := by
  induction acc with
  | nil => intro p hp; exact absurd hp (List.not_mem_nil p)
  | cons q rest ih =>
    simp only [List.map_cons, List.nodup_cons] at h
    intro p hp
    rcases List.mem_cons.mp hp with h1 | h1
    · subst h1
      rw [entryCount_cons, if_pos rfl, entryCount_eq_zero rest p.1 h.1]
      omega
    · have hne : ¬ (q.1 = p.1) := by
        intro hh
        exact h.1 (hh ▸ List.mem_map_of_mem Prod.fst h1)
      rw [entryCount_cons, if_neg hne, ih h.2 p h1]
      omega

theorem countsFold_entryCount (items : List String) :
    ∀ (acc : List (String × ℕ)) (k : String),
      entryCount (items.foldl bumpCount acc) k = entryCount acc k + items.count k := by
  induction items with
  | nil => intro acc k; simp
  | cons x xs ih =>
    intro acc k
    rw [List.foldl_cons, ih, bumpCount_entryCount]
    by_cases h : k = x <;> simp [List.count_cons, h] <;> omega

theorem countsFold_keys_mem (items : List String) :
    ∀ (acc : List (String × ℕ)) (k : String),
      k ∈ (items.foldl bumpCount acc).map Prod.fst ↔
        k ∈ acc.map Prod.fst ∨ k ∈ items := by
  induction items with
  | nil => intro acc k; simp
  | cons x xs ih =>
    intro acc k
    rw [List.foldl_cons, ih, bumpCount_keys]
    by_cases hx : x ∈ acc.map Prod.fst
    · rw [if_pos hx]
      simp only [List.mem_cons]
      constructor
      · rintro (h | h)
        · exact Or.inl h
        · exact Or.inr (Or.inr h)
      · rintro (h | h | h)
        · exact Or.inl h
        · exact Or.inl (h ▸ hx)
        · exact Or.inr h
    · rw [if_neg hx]
      simp [List.mem_append, List.mem_cons, or_assoc]

theorem countsFold_keys_nodup (items : List String) :
    ∀ acc : List (String × ℕ), (acc.map Prod.fst).Nodup →
      ((items.foldl bumpCount acc).map Prod.fst).Nodup := by
  induction items with
  | nil => intro acc h; exact h
  | cons x xs ih =>
    intro acc h
    rw [List.foldl_cons]
    refine ih _ ?_
    rw [bumpCount_keys]
    split_ifs with hx
    · exact h
    · exact List.Nodup.append h (List.nodup_singleton x) (by simpa using hx)

theorem countOrderLe_total : ∀ a b : String × ℕ, countOrderLe a b ∨ countOrderLe b a := by
  intro a b
  unfold countOrderLe ciLe
  rcases lt_trichotomy a.2 b.2 with h | h | h
  · exact Or.inr (Or.inl h)
  · rcases le_total a.1.toLower b.1.toLower with h2 | h2
    · exact Or.inl (Or.inr ⟨h, h2⟩)
    · exact Or.inr (Or.inr ⟨h.symm, h2⟩)
  · exact Or.inl (Or.inl h)

theorem countOrderLe_trans : ∀ a b c : String × ℕ,
    countOrderLe a b → countOrderLe b c → countOrderLe a c := by
  intro a b c hab hbc
  unfold countOrderLe ciLe at *
  rcases hab with h1 | ⟨h1, h1'⟩ <;> rcases hbc with h2 | ⟨h2, h2'⟩
  · exact Or.inl (lt_trans h2 h1)
  · exact Or.inl (by omega)
  · exact Or.inl (by omega)
  · exact Or.inr ⟨h1.trans h2, le_trans h1' h2'⟩

theorem topEntry_spec (items : List String) (hne : items ≠ []) :
    ∃ name cnt, topEntry items = some (name, cnt)
      ∧ cnt = items.count name ∧ name ∈ items
      ∧ ∀ other ∈ items,
          items.count other < cnt ∨ (items.count other = cnt ∧ ciLe name other) := by
  haveI : IsTotal (String × ℕ) countOrderLe := ⟨countOrderLe_total⟩
  haveI : IsTrans (String × ℕ) countOrderLe := ⟨countOrderLe_trans⟩
  have hnodup : ((countsList items).map Prod.fst).Nodup :=
    countsFold_keys_nodup items [] (by simp)
  have hmemkeys : ∀ k, k ∈ (countsList items).map Prod.fst ↔ k ∈ items := by
    intro k
    rw [show countsList items = items.foldl bumpCount [] from rfl,
      countsFold_keys_mem items [] k]
    simp
  have hcount : ∀ p ∈ countsList items, p.2 = items.count p.1 := by
    intro p hp
    have h1 := entryCount_of_mem_nodup (countsList items) hnodup p hp
    have h2 := countsFold_entryCount items [] p.1
    rw [show countsList items = items.foldl bumpCount [] from rfl] at h1
    rw [h2] at h1
    simp only [entryCount, List.filter_nil, List.map_nil, List.sum_nil, Nat.zero_add] at h1
    omega
  have hperm := List.perm_insertionSort countOrderLe (countsList items)
  have hsorted := List.sorted_insertionSort countOrderLe (countsList items)
  obtain ⟨x, hx⟩ := List.exists_mem_of_ne_nil items hne
  have hxkeys : x ∈ (countsList items).map Prod.fst := (hmemkeys x).mpr hx
  have hcne : countsList items ≠ [] := by
    intro hnil
    rw [hnil] at hxkeys
    exact absurd hxkeys (List.not_mem_nil x)
  have hsne : List.insertionSort countOrderLe (countsList items) ≠ [] := by
    intro hnil
    exact hcne (List.eq_nil_of_length_eq_zero (by rw [← hperm.length_eq, hnil]; rfl))
  obtain ⟨top, tail, hcons⟩ := List.exists_cons_of_ne_nil hsne
  have htopmem : top ∈ countsList items := hperm.mem_iff.mp (hcons ▸ List.mem_cons_self _ _)
  refine ⟨top.1, top.2, ?_, (hcount top htopmem).symm ▸ rfl, ?_, ?_⟩
  · rw [show topEntry items =
      (List.insertionSort countOrderLe (countsList items)).head? from rfl, hcons]
    rfl
  · exact (hmemkeys top.1).mp (List.mem_map_of_mem Prod.fst htopmem)
  · intro other hother
    obtain ⟨p, hp, hpfst⟩ := List.mem_map.mp ((hmemkeys other).mpr hother)
    have hpsorted : p ∈ List.insertionSort countOrderLe (countsList items) :=
      hperm.mem_iff.mpr hp
    rw [hcons] at hpsorted
    have hcp : p.2 = items.count other := hpfst ▸ hcount p hp
    have hct : top.2 = items.count top.1 := hcount top htopmem
    rcases List.mem_cons.mp hpsorted with h1 | h1
    · subst h1
      exact Or.inr ⟨by rw [← hcp, hct], by rw [← hpfst]; exact le_refl _⟩
    · have hrel : countOrderLe top p :=
        List.rel_of_sorted_cons (hcons ▸ hsorted) p h1
      unfold countOrderLe at hrel
      rcases hrel with h2 | ⟨h2, h2'⟩
      · exact Or.inl (by omega)
      · exact Or.inr ⟨by omega, hpfst ▸ h2'⟩

/-- **C7.** For a non-empty trip, `topSpeciesLabel` names a species of the
trip with the greatest number of captures in the merged capture list, ties
broken by case-insensitive alphabetical order, formatted `"Name (count)"`. -/
theorem top_species_label (distKm : ℚ × ℚ → ℚ × ℚ → ℚ)
    (parseDate : String → Option Int) (firstSeen : String → Option String)
    (dayKey : String) (geo : List TimedGeo) (extras : List Capture)
    (hne : (buildTrip distKm parseDate firstSeen dayKey geo extras).captures ≠ []) :
    ∃ name cnt,
      (buildTrip distKm parseDate firstSeen dayKey geo extras).topSpeciesLabel
          = name ++ " (" ++ toString cnt ++ ")"
      ∧ cnt = ((buildTrip distKm parseDate firstSeen dayKey geo extras).captures.map
          (fun c => c.core.bird)).count name
      ∧ (∃ c ∈ (buildTrip distKm parseDate firstSeen dayKey geo extras).captures,
          c.core.bird = name)
      ∧ ∀ other ∈ (buildTrip distKm parseDate firstSeen dayKey geo extras).captures.map
          (fun c => c.core.bird),
          ((buildTrip distKm parseDate firstSeen dayKey geo extras).captures.map
              (fun c => c.core.bird)).count other < cnt
          ∨ (((buildTrip distKm parseDate firstSeen dayKey geo extras).captures.map
              (fun c => c.core.bird)).count other = cnt ∧ ciLe name other) := by
  have hbirds : (buildTrip distKm parseDate firstSeen dayKey geo extras).captures.map
      (fun c => c.core.bird) ≠ [] := by
    intro h
    exact hne (List.map_eq_nil_iff.mp h)
  obtain ⟨name, cnt, htop, hcnt, hmem, hmax⟩ := topEntry_spec _ hbirds
  refine ⟨name, cnt, ?_, hcnt, List.mem_map.mp hmem, hmax⟩
  show topSpeciesLabelOf (buildTrip distKm parseDate firstSeen dayKey geo extras).captures
      = name ++ " (" ++ toString cnt ++ ")"
  unfold topSpeciesLabelOf
  rw [show (buildTrip distKm parseDate firstSeen dayKey geo extras).captures.map
      (fun c => c.core.bird) =
      (buildTrip distKm parseDate firstSeen dayKey geo extras).captures.map
      (fun c => c.core.bird) from rfl] at htop
  rw [htop]

/-- Witness for C7 on a concrete three-capture trip with a 2-1 species
split. -/
theorem top_species_label_witness :
    ∃ name cnt,
      (buildTrip taxiDist parseDate0 (fun _ => none) "2024-01-01"
          [⟨geoNear, 0⟩, ⟨geoNear2, 45 * 60000⟩] [capCrow]).topSpeciesLabel
          = name ++ " (" ++ toString cnt ++ ")"
      ∧ cnt = ((buildTrip taxiDist parseDate0 (fun _ => none) "2024-01-01"
          [⟨geoNear, 0⟩, ⟨geoNear2, 45 * 60000⟩] [capCrow]).captures.map
          (fun c => c.core.bird)).count name
      ∧ (∃ c ∈ (buildTrip taxiDist parseDate0 (fun _ => none) "2024-01-01"
          [⟨geoNear, 0⟩, ⟨geoNear2, 45 * 60000⟩] [capCrow]).captures,
          c.core.bird = name)
      ∧ ∀ other ∈ (buildTrip taxiDist parseDate0 (fun _ => none) "2024-01-01"
          [⟨geoNear, 0⟩, ⟨geoNear2, 45 * 60000⟩] [capCrow]).captures.map
          (fun c => c.core.bird),
          ((buildTrip taxiDist parseDate0 (fun _ => none) "2024-01-01"
              [⟨geoNear, 0⟩, ⟨geoNear2, 45 * 60000⟩] [capCrow]).captures.map
              (fun c => c.core.bird)).count other < cnt
          ∨ (((buildTrip taxiDist parseDate0 (fun _ => none) "2024-01-01"
              [⟨geoNear, 0⟩, ⟨geoNear2, 45 * 60000⟩] [capCrow]).captures.map
              (fun c => c.core.bird)).count other = cnt ∧ ciLe name other) :=
  top_species_label taxiDist parseDate0 (fun _ => none) "2024-01-01"
    [⟨geoNear, 0⟩, ⟨geoNear2, 45 * 60000⟩] [capCrow]
    (by with_unfolding_all decide)

/-- Counterexample to C3 as stated: on the ranked candidates
`entryP1, entryP2, entryP3` the code selects three anchors (not at most 2),
and the second candidate is admitted although its centroid is 0 miles from
the already-selected first anchor. -/
theorem park_anchor_selection_cex :
    (selectParks taxiDist [entryP1, entryP2, entryP3]).1
        = ["Park One", "Park Two", "Park Three"]
    ∧ ¬ ((selectParks taxiDist [entryP1, entryP2, entryP3]).1.length ≤ 2)
    ∧ taxiDist entryP2.centroid entryP1.centroid / KM_PER_MILE
        < TITLE_APPEND_DISTANCE_MILES
    ∧ "Park Two" ∈ (selectParks taxiDist [entryP1, entryP2, entryP3]).1 :=
  ⟨by with_unfolding_all decide, by with_unfolding_all decide,
    by with_unfolding_all decide, by with_unfolding_all decide⟩

theorem farEnough_minMilesTo (distKm : ℚ × ℚ → ℚ × ℚ → ℚ) (c : ℚ × ℚ)
    (centers : List (ℚ × ℚ)) :
    farEnough (minMilesTo distKm centers c) = true ↔
      ∀ x ∈ centers, TITLE_APPEND_DISTANCE_MILES ≤ distKm c x / KM_PER_MILE := by
  have aux : ∀ (cs : List (ℚ × ℚ)) (m : Option ℚ),
      (farEnough (cs.foldl (fun m center =>
          let miles := distKm c center / KM_PER_MILE
          match m with
          | none => some miles
          | some m' => some (min m' miles)) m) = true
        ↔ farEnough m = true ∧
          ∀ x ∈ cs, TITLE_APPEND_DISTANCE_MILES ≤ distKm c x / KM_PER_MILE) := by
    intro cs
    induction cs with
    | nil => intro m; simp
    | cons y ys ih =>
      intro m
      rw [List.foldl_cons, ih]
      cases m with
      | none =>
        simp only [farEnough, List.forall_mem_cons, decide_eq_true_eq]
        tauto
      | some m' =>
        simp only [farEnough, List.forall_mem_cons, decide_eq_true_eq, le_min_iff]
        tauto
  rw [minMilesTo, aux]
  simp [farEnough]

theorem selectParks_eq_spec (distKm : ℚ × ℚ → ℚ × ℚ → ℚ) (entries : List LabelEntry) :
    selectParks distKm entries = selectParksSpec distKm entries := by
  have aux : ∀ (es : List LabelEntry) (st : List String × List (ℚ × ℚ)),
      es.foldl (selectParksStep distKm) st = selectParksSpecGo distKm st es := by
    intro es
    induction es with
    | nil => intro st; rfl
    | cons e rest ih =>
      intro st
      have hstep : selectParksStep distKm st e =
          if st.1.length < 2 ∨ ∀ c ∈ st.2,
              TITLE_APPEND_DISTANCE_MILES ≤ distKm e.centroid c / KM_PER_MILE
          then (st.1 ++ [e.label], st.2 ++ [e.centroid]) else st := by
        unfold selectParksStep
        by_cases h1 : st.1.length < 2
        · rw [if_pos h1, if_pos (Or.inl h1)]
        · rw [if_neg h1]
          by_cases h2 : ∀ c ∈ st.2,
              TITLE_APPEND_DISTANCE_MILES ≤ distKm e.centroid c / KM_PER_MILE
          · rw [if_pos ((farEnough_minMilesTo distKm e.centroid st.2).mpr h2),
              if_pos (Or.inr h2)]
          · rw [if_neg (fun hf => h2 ((farEnough_minMilesTo distKm e.centroid st.2).mp hf)),
              if_neg (fun hor => hor.elim h1 h2)]
      rw [List.foldl_cons, hstep]
      by_cases hcond : st.1.length < 2 ∨ ∀ c ∈ st.2,
          TITLE_APPEND_DISTANCE_MILES ≤ distKm e.centroid c / KM_PER_MILE
      · rw [if_pos hcond, ih,
          show selectParksSpecGo distKm st (e :: rest)
              = if st.1.length < 2 ∨ ∀ c ∈ st.2,
                  TITLE_APPEND_DISTANCE_MILES ≤ distKm e.centroid c / KM_PER_MILE
                then selectParksSpecGo distKm (st.1 ++ [e.label], st.2 ++ [e.centroid]) rest
                else selectParksSpecGo distKm st rest from rfl,
          if_pos hcond]
      · rw [if_neg hcond, ih,
          show selectParksSpecGo distKm st (e :: rest)
              = if st.1.length < 2 ∨ ∀ c ∈ st.2,
                  TITLE_APPEND_DISTANCE_MILES ≤ distKm e.centroid c / KM_PER_MILE
                then selectParksSpecGo distKm (st.1 ++ [e.label], st.2 ++ [e.centroid]) rest
                else selectParksSpecGo distKm st rest from rfl,
          if_neg hcond]
  exact aux entries ([], [])

theorem selectParks_mono (distKm : ℚ × ℚ → ℚ × ℚ → ℚ) :
    ∀ (l : List LabelEntry) (st : List String × List (ℚ × ℚ)),
      ∃ suffix, (l.foldl (selectParksStep distKm) st).1 = st.1 ++ suffix := by
  intro l
  induction l with
  | nil => intro st; exact ⟨[], (List.append_nil _).symm⟩
  | cons e rest ih =>
    intro st
    rw [List.foldl_cons]
    by_cases h1 : st.1.length < 2
    · have hstep : selectParksStep distKm st e
          = (st.1 ++ [e.label], st.2 ++ [e.centroid]) := by
        unfold selectParksStep
        rw [if_pos h1]
      rw [hstep]
      obtain ⟨suf, hs⟩ := ih (st.1 ++ [e.label], st.2 ++ [e.centroid])
      exact ⟨[e.label] ++ suf, by rw [hs, List.append_assoc]⟩
    · by_cases h2 : farEnough (minMilesTo distKm st.2 e.centroid) = true
      · have hstep : selectParksStep distKm st e
            = (st.1 ++ [e.label], st.2 ++ [e.centroid]) := by
          unfold selectParksStep
          rw [if_neg h1, if_pos h2]
        rw [hstep]
        obtain ⟨suf, hs⟩ := ih (st.1 ++ [e.label], st.2 ++ [e.centroid])
        exact ⟨[e.label] ++ suf, by rw [hs, List.append_assoc]⟩
      · have hstep : selectParksStep distKm st e = st := by
          unfold selectParksStep
          rw [if_neg h1, if_neg h2]
        rw [hstep]
        exact ih st

/-- **C3 (corrected).** `LocationLabeler`'s anchor selection (build.js
453-469) keeps the first **two** ranked candidates unconditionally, admits
each later candidate iff its centroid is at least 3 miles from every
already-selected anchor centroid, and has **no** cap of two anchors: the
selection equals the reference rule `selectParksSpec`, and the labels of the
first two ranked candidates always appear in the selection. -/
theorem park_anchor_selection_amended (distKm : ℚ × ℚ → ℚ × ℚ → ℚ)
    (entries : List LabelEntry) :
    selectParks distKm entries = selectParksSpec distKm entries
    ∧ (∀ e ∈ entries.take 2, e.label ∈ (selectParks distKm entries).1) := by
  refine ⟨selectParks_eq_spec distKm entries, ?_⟩
  intro e he
  unfold selectParks
  match entries, he with
  | e0 :: rest, he =>
    rcases List.mem_cons.mp (by simpa [List.take_succ_cons] using he) with h0 | h0
    · subst h0
      rw [List.foldl_cons]
      have hstep : selectParksStep distKm ([], []) e = ([e.label], [e.centroid]) := by
        unfold selectParksStep
        rw [if_pos (by simp)]
        rfl
      rw [hstep]
      obtain ⟨suf, hs⟩ := selectParks_mono distKm rest ([e.label], [e.centroid])
      rw [hs]
      exact List.mem_append.mpr (Or.inl (List.mem_singleton.mpr rfl))
    · match rest, h0 with
      | e1 :: rest', h0 =>
        have h1 : e = e1 := by simpa using h0
        subst h1
        rw [List.foldl_cons, List.foldl_cons]
        have hstep0 : selectParksStep distKm ([], []) e0 = ([e0.label], [e0.centroid]) := by
          unfold selectParksStep
          rw [if_pos (by simp)]
          rfl
        have hstep1 : selectParksStep distKm ([e0.label], [e0.centroid]) e
            = ([e0.label, e.label], [e0.centroid, e.centroid]) := by
          unfold selectParksStep
          rw [if_pos (by simp)]
          rfl
        rw [hstep0, hstep1]
        obtain ⟨suf, hs⟩ := selectParks_mono distKm rest'
          ([e0.label, e.label], [e0.centroid, e.centroid])
        rw [hs]
        exact List.mem_append.mpr (Or.inl (by simp))

/-- Witness for the amended C3: both top-ranked candidates are selected even
though they are 0 miles apart. -/
theorem park_anchor_selection_amended_witness :
    entryP1.label ∈ (selectParks taxiDist [entryP1, entryP2, entryP3]).1
    ∧ entryP2.label ∈ (selectParks taxiDist [entryP1, entryP2, entryP3]).1 :=
  ⟨(park_anchor_selection_amended taxiDist [entryP1, entryP2, entryP3]).2 entryP1
      (by decide),
    (park_anchor_selection_amended taxiDist [entryP1, entryP2, entryP3]).2 entryP2
      (by decide)⟩

/-- Counterexample to C8 as stated: a label-free two-capture cluster.  The
code's fallback title is the first capture's own coordinates (the first
entry of the `locations` detail list), not the trip centroid, and no
"up to 2 locationLabel values" are involved. -/
theorem location_title_fallback_cex :
    parkLabels c8Geo = [] ∧ citiesOf c8Geo = []
    ∧ (∀ g ∈ c8Geo, g.geo.locationLabel = none)
    ∧ (buildTrip taxiDist parseDate0 (fun _ => none) "2024-01-01" c8Geo []).locationTitle
        = "40.000, -74.000"
    ∧ toFixed3 (clusterCentroid c8Geo).1 ++ ", " ++ toFixed3 (clusterCentroid c8Geo).2
        = "40.500, -74.500"
    ∧ (buildTrip taxiDist parseDate0 (fun _ => none) "2024-01-01" c8Geo []).locationTitle
        ≠ toFixed3 (clusterCentroid c8Geo).1 ++ ", " ++ toFixed3 (clusterCentroid c8Geo).2 :=
  ⟨by with_unfolding_all decide, by with_unfolding_all decide,
    by with_unfolding_all decide, by with_unfolding_all decide,
    by with_unfolding_all decide, by with_unfolding_all decide⟩

theorem string_append_sep_ne_empty (x y : String) : x ++ ", " ++ y ≠ "" := by
  intro he
  have hlen := congrArg String.length he
  rw [String.length_append, String.length_append] at hlen
  have h2 : (", " : String).length = 2 := rfl
  have h0 : ("" : String).length = 0 := rfl
  rw [h2, h0] at hlen
  omega

theorem bestLocationFallback_ne_empty (g : GeoCapture) : bestLocationFallback g ≠ "" := by
  unfold bestLocationFallback
  dsimp only
  split_ifs with h
  · exact string_append_sep_ne_empty _ _
  · intro he
    exact h ((String.isEmpty_iff _).mpr he)

theorem bestLocationLabel_ne_empty (g : GeoCapture) : bestLocationLabel g ≠ "" := by
  unfold bestLocationLabel
  cases g.locationLabel with
  | none => exact bestLocationFallback_ne_empty g
  | some s =>
    dsimp only
    split_ifs with h
    · exact bestLocationFallback_ne_empty g
    · intro he
      exact h ((String.isEmpty_iff _).mpr he)

theorem foldl_dedup_mono {α : Type} [DecidableEq α] :
    ∀ (l : List α) (acc : List α), ∃ suffix,
      l.foldl (fun acc x => if x ∈ acc then acc else acc ++ [x]) acc = acc ++ suffix := by
  intro l
  induction l with
  | nil => intro acc; exact ⟨[], (List.append_nil _).symm⟩
  | cons x xs ih =>
    intro acc
    rw [List.foldl_cons]
    by_cases h : x ∈ acc
    · rw [if_pos h]
      exact ih acc
    · rw [if_neg h]
      obtain ⟨suf, hs⟩ := ih (acc ++ [x])
      exact ⟨[x] ++ suf, by rw [hs, List.append_assoc]⟩

theorem firstDedup_cons_head {α : Type} [DecidableEq α] (x : α) (xs : List α) :
    ∃ suffix, firstDedup (x :: xs) = x :: suffix := by
  unfold firstDedup
  rw [List.foldl_cons, if_neg (List.not_mem_nil x)]
  obtain ⟨suf, hs⟩ := foldl_dedup_mono xs ([] ++ [x])
  exact ⟨suf, by simpa using hs⟩

theorem locationsOf_cons_head (g : TimedGeo) (rest : List TimedGeo) :
    ∃ suffix, locationsOf (g :: rest) = bestLocationLabel g.geo :: suffix := by
  unfold locationsOf
  rw [List.map_cons]
  exact firstDedup_cons_head _ _

/-- **C8 (corrected).** For a trip with no park/site anchor labels and no
city values, `locationTitle` is the *first* entry of the `locations` detail
list — the first capture's `locationLabel`, else its joined
city/state/country, else that capture's own coordinates — with the trip
centroid only as a dead fallback: since every geotagged capture yields a
nonempty detail entry, a nonempty cluster always titles from the first
capture's entry, never from the centroid, and never from two
`locationLabel` values. -/
theorem location_title_fallback_amended (distKm : ℚ × ℚ → ℚ × ℚ → ℚ)
    (geo : List TimedGeo) (hp : parkLabels geo = []) (hc : citiesOf geo = []) :
    (locationTitleOf distKm geo =
        if ((locationsOf geo).headD "").isEmpty then
          toFixed3 (clusterCentroid geo).1 ++ ", " ++ toFixed3 (clusterCentroid geo).2
        else (locationsOf geo).headD "")
    ∧ (∀ g rest, geo = g :: rest → locationTitleOf distKm geo = bestLocationLabel g.geo)
    ∧ (∀ distKm' parseDate firstSeen dayKey extras,
        (buildTrip distKm' parseDate firstSeen dayKey geo extras).locationTitle
          = locationTitleOf distKm' geo) := by
  have e1 : parkEntries geo = [] := by
    unfold parkEntries
    rw [hp]
    rfl
  have emain : locationTitleOf distKm geo =
      (if ((locationsOf geo).headD "").isEmpty then
        toFixed3 (clusterCentroid geo).1 ++ ", " ++ toFixed3 (clusterCentroid geo).2
      else (locationsOf geo).headD "") := by
    unfold locationTitleOf
    rw [e1]
    simp [sortEntries, selectParks, titleState, hc]
  refine ⟨emain, ?_, fun _ _ _ _ _ => rfl⟩
  intro g rest hgeo
  subst hgeo
  obtain ⟨suf, hs⟩ := locationsOf_cons_head g rest
  rw [emain, hs]
  simp only [List.headD_cons]
  rw [if_neg (fun hempty =>
    bestLocationLabel_ne_empty g.geo ((String.isEmpty_iff _).mp hempty))]

/-- Witness for the amended C8: a one-capture cluster with a free-form
`locationLabel` titles from it. -/
theorem location_title_fallback_amended_witness :
    locationTitleOf taxiDist c8GeoLabelled = "Lakeside Refuge" := by
  have h := (location_title_fallback_amended taxiDist c8GeoLabelled
    (by with_unfolding_all decide) (by with_unfolding_all decide)).2.1
    ⟨⟨capBlueJay, 40, -74, some "Lakeside Refuge", none, none, none, none, none⟩, 0⟩
    [] rfl
  rw [h]
  with_unfolding_all decide

end Birdopedia
